import Mathlib

/-!
# RoleCounter: the reconciliation engine of `src/index.js`

A shallow embedding of the role-tracking part of the bot: the label renderer
(`generateChannelName`), the membership resolver (`countRoleMembers`), the
channel updater (`updateVoiceChannel`), the reconciliation pass
(`updateAllChannels`), the membership-event handlers that schedule passes,
the passes in progress at the grain of their awaited renames, and the command
handler (`interactionCreate`) that changes the bindings.

Conventions of the embedding.

* A JavaScript string is a `List Char`.  The four placeholder patterns are
  ASCII, so matching them code point by code point agrees with matching them
  code unit by code unit.
* An `async` function is a function from the state it can touch to a pair
  `(outcome, state)`.  The outcome is `Except JsError α`: `.error` is a thrown
  exception (a rejected promise).  The state is returned in both cases, since
  the effects performed before a `throw` are kept.
* What the Discord service answers is part of the state: the roster that
  `guild.members.fetch()` retrieves (or that the request fails), and whether
  a rename of a given channel is rejected.
* Every request sent to the service is appended to `Guild.calls`.
-/

namespace RoleCounter

/-- A JavaScript string. -/
abbrev Str := List Char

/-! ## `String.prototype.replace` with a global literal pattern -/

/-- The expansion of a replacement string for one match (ECMAScript
`GetSubstitution`).  The patterns of `generateChannelName` have no capture
groups, so the forms that refer to a group (a dollar sign followed by digits
or by `<`) expand to themselves, which is what copying their characters one
by one does.  `Char.ofNat 96` is the backquote and `Char.ofNat 39` the
apostrophe. -/
def getSubstitution (matched before after : Str) : Str → Str
  | [] => []
  | [c] => [c]
  | c :: d :: r =>
    if c = '$' then
      if d = '$' then '$' :: getSubstitution matched before after r
      else if d = Char.ofNat 96 then before ++ getSubstitution matched before after r
      else if d = '&' then matched ++ getSubstitution matched before after r
      else if d = Char.ofNat 39 then after ++ getSubstitution matched before after r
      else c :: getSubstitution matched before after (d :: r)
    else c :: getSubstitution matched before after (d :: r)

/-- The left-to-right scan of `s.replace(/pat/g, repl)` for a literal,
non-empty pattern.  `before` is the part of the subject already scanned (what
the backquote form expands to), `skip` counts the characters of the current
match that remain to be consumed: matches are found in the subject, never in
replaced text, and do not overlap. -/
def replaceGo (pat repl : Str) : Nat → Str → Str → Str
  | _, _, [] => []
  | skip + 1, before, c :: rest => replaceGo pat repl skip (before ++ [c]) rest
  | 0, before, c :: rest =>
    if pat.isPrefixOf (c :: rest) then
      getSubstitution pat before ((c :: rest).drop pat.length) repl
        ++ replaceGo pat repl (pat.length - 1) (before ++ [c]) rest
    else c :: replaceGo pat repl 0 (before ++ [c]) rest

/-- The call `s.replace(/pat/g, repl)`. -/
def replaceAll (pat repl s : Str) : Str := replaceGo pat repl 0 [] s

/-- The conversion of a member count to a string, done by `replace` on its
second argument: the decimal digits. -/
def numberToString (n : Nat) : Str := (Nat.repr n).toList

/-- The template used when a binding has none. -/
def defaultTemplate : Str := "{count} - {role}".toList

/-- The substitution chain of `generateChannelName` (lines 88 to 92): four
`replace` calls, each applied to the result of the one before. -/
def render (template : Str) (memberCount : Nat) (roleName roleId guildName : Str) : Str :=
  replaceAll "{guild}".toList guildName
    (replaceAll "{roleid}".toList roleId
      (replaceAll "{role}".toList roleName
        (replaceAll "{count}".toList (numberToString memberCount) template)))

/-! ## The state: guilds, roles, members, channels -/

/-- An exception raised by a request to the service. -/
inductive JsError
  | fetchFailed
  | setNameFailed
  | createFailed
  | deleteFailed
  | typeError
deriving DecidableEq, Repr

/-- The kinds of channel the code distinguishes. -/
inductive ChannelType
  | GuildText
  | GuildVoice
  | GuildCategory
deriving DecidableEq, Repr

/-- A channel of `guild.channels.cache`.  `setNameRejected` tells whether the
service rejects a rename of this channel (missing permission, rate limit,
network error). -/
structure Channel where
  id : Str
  type : ChannelType
  name : Str
  setNameRejected : Bool
deriving DecidableEq, Repr

/-- A role of `guild.roles.cache`. -/
structure Role where
  id : Str
  name : Str
deriving DecidableEq, Repr

/-- A member of `guild.members.cache`, with the ids of the roles it holds. -/
structure GuildMember where
  id : Str
  roles : List Str
deriving DecidableEq, Repr

/-- A request sent to the service. -/
inductive ApiCall
  | membersFetch
  | setName (channelId name : Str)
  | channelsCreate (name : Str)
  | channelDelete (channelId : Str)
deriving DecidableEq, Repr

/-- A guild as the bot sees it.  `roster` is what `guild.members.fetch()`
retrieves, `none` when the request fails.  `created` is the id of the channel
that `guild.channels.create` would return, `none` when the request fails. -/
structure Guild where
  id : Str
  name : Str
  roles : List Role
  members : List GuildMember
  roster : Option (List GuildMember)
  channels : List Channel
  created : Option Str
  calls : List ApiCall
deriving DecidableEq, Repr

/-- The outcome of an `async` function together with the state it leaves. -/
abbrev Async (σ α : Type) := Except JsError α × σ

/-- The lookup `guild.roles.cache.get(roleId)`. -/
def Guild.role? (g : Guild) (roleId : Str) : Option Role :=
  g.roles.find? (fun r => decide (r.id = roleId))

/-- The lookup `guild.channels.cache.get(channelId)`. -/
def Guild.channel? (g : Guild) (channelId : Str) : Option Channel :=
  g.channels.find? (fun c => decide (c.id = channelId))

/-- The size of `role.members`: the cached members that hold the role. -/
def roleMembersSize (g : Guild) (roleId : Str) : Nat :=
  (g.members.filter (fun m => decide (roleId ∈ m.roles))).length

/-- The call `guild.members.fetch()`, at its call site in `countRoleMembers`
where the cache is empty: on success the cache holds the roster. -/
def membersFetch (g : Guild) : Async Guild Unit :=
  let g1 := { g with calls := g.calls ++ [ApiCall.membersFetch] }
  match g.roster with
  | none => (.error JsError.fetchFailed, g1)
  | some ms => (.ok (), { g1 with members := ms })

/-- The channel list after the channel `channelId` took the name `newName`. -/
def renameIn (channelId newName : Str) : List Channel → List Channel
  | [] => []
  | c :: cs =>
    if c.id = channelId then { c with name := newName } :: cs
    else c :: renameIn channelId newName cs

/-- The call `channel.setName(newName)`: the request is sent; when the service
accepts it the cached channel carries the new name, otherwise the call throws
and the channel keeps its name. -/
def setName (g : Guild) (channel : Channel) (newName : Str) : Async Guild Unit :=
  let g1 := { g with calls := g.calls ++ [ApiCall.setName channel.id newName] }
  if channel.setNameRejected then (.error JsError.setNameFailed, g1)
  else (.ok (), { g1 with channels := renameIn channel.id newName g1.channels })

/-! ## The functions of `src/index.js` -/

/-- Lines 58 to 71. -/
def countRoleMembers (g : Guild) (roleId : Str) : Async Guild Nat :=
  match g.role? roleId with
  | none => (.ok 0, g)
  | some role =>
    -- try
    match (if g.members.length = 0 then membersFetch g else (.ok (), g)) with
    | (.ok _, g1) => (.ok (roleMembersSize g1 role.id), g1)
    -- catch: the error is logged
    | (.error _, g1) => (.ok 0, g1)

/-- The expression `roleData.nameTemplate || default` (line 86): an absent
and an empty template are both falsy. -/
def templateOrDefault : Option Str → Str
  | none => defaultTemplate
  | some t => if t = [] then defaultTemplate else t

/-- Lines 81 to 93.  Of `roleData` only `nameTemplate` is read. -/
def generateChannelName (g : Guild) (roleId : Str) (nameTemplate : Option Str) :
    Async Guild Str :=
  match g.role? roleId with
  | none => (.ok "Unknown Role".toList, g)
  | some role =>
    match countRoleMembers g roleId with
    | (.error e, g1) => (.error e, g1)
    | (.ok memberCount, g1) =>
      (.ok (render (templateOrDefault nameTemplate) memberCount role.name roleId g1.name), g1)

/-- A binding as `updateVoiceChannel` receives it. -/
structure RoleData where
  channelId : Str
  nameTemplate : Option Str
deriving DecidableEq, Repr

/-- The body of the `try` block of `updateVoiceChannel` (lines 105 to 113). -/
def updateVoiceChannelBody (g : Guild) (roleId : Str) (roleData : RoleData) :
    Async Guild Unit :=
  match g.channel? roleData.channelId with
  | none => (.ok (), g)
  | some channel =>
    if channel.type ≠ ChannelType.GuildVoice then (.ok (), g)
    else
      match generateChannelName g roleId roleData.nameTemplate with
      | (.error e, g1) => (.error e, g1)
      | (.ok newName, g1) =>
        if channel.name ≠ newName then setName g1 channel newName
        else (.ok (), g1)

/-- Lines 103 to 117: the body inside `try`, with a `catch` that logs. -/
def updateVoiceChannel (g : Guild) (roleId : Str) (roleData : RoleData) :
    Async Guild Unit :=
  match updateVoiceChannelBody g roleId roleData with
  | (.ok _, g1) => (.ok (), g1)
  | (.error _, g1) => (.ok (), g1)

/-- Lines 126 to 147.  `nameTemplate` is `none` when the argument is omitted;
the default parameter value then applies.  The result is the created channel,
or `none` for the `null` returned from the `catch`. -/
def createVoiceChannel (g : Guild) (roleId : Str) (nameTemplate : Option Str) :
    Async Guild (Option Channel) :=
  let nameTemplate := nameTemplate.getD defaultTemplate
  match generateChannelName g roleId (some nameTemplate) with
  | (.error _, g1) => (.ok none, g1)
  | (.ok channelName, g1) =>
    let g2 := { g1 with calls := g1.calls ++ [ApiCall.channelsCreate channelName] }
    match g2.created with
    | none => (.ok none, g2)
    | some newId =>
      let channel : Channel :=
        { id := newId, type := ChannelType.GuildVoice, name := channelName,
          setNameRejected := false }
      (.ok (some channel), { g2 with channels := g2.channels ++ [channel] })

/-- A stored value of `config.trackedRoles[guildId][roleId]`: an object, or in
the legacy format the bare channel id. -/
inductive RoleEntry
  | legacy (channelId : Str)
  | data (roleData : RoleData)
deriving DecidableEq, Repr

/-- The part of the configuration that the engine reads. -/
structure Config where
  trackedRoles : List (Str × List (Str × RoleEntry))
  updateInterval : Nat
deriving DecidableEq, Repr

/-- The lookup `config.trackedRoles[guildId]`. -/
def Config.guildConfig? (config : Config) (guildId : Str) :
    Option (List (Str × RoleEntry)) :=
  (config.trackedRoles.find? (fun p => decide (p.1 = guildId))).map Prod.snd

/-- Lines 159 to 161: a stored value as passed to `updateVoiceChannel`. -/
def normalizedData : RoleEntry → RoleData
  | .legacy channelId => { channelId := channelId, nameTemplate := some defaultTemplate }
  | .data roleData => roleData

/-- The inner loop of `updateAllChannels` (lines 158 to 163) over the entries
of one guild.  An exception of `updateVoiceChannel` would leave the loop. -/
def updateGuildEntries (g : Guild) : List (Str × RoleEntry) → Async Guild Unit
  | [] => (.ok (), g)
  | (roleId, roleData) :: rest =>
    match updateVoiceChannel g roleId (normalizedData roleData) with
    | (.ok _, g1) => updateGuildEntries g1 rest
    | (.error e, g1) => (.error e, g1)

/-- The outer loop of `updateAllChannels` (lines 154 to 164) over the guilds
of the client. -/
def updateGuilds (config : Config) : List Guild → Async (List Guild) Unit
  | [] => (.ok (), [])
  | g :: gs =>
    match config.guildConfig? g.id with
    | none =>
      let r := updateGuilds config gs
      (r.1, g :: r.2)
    | some guildConfig =>
      match updateGuildEntries g guildConfig with
      | (.ok _, g1) =>
        let r := updateGuilds config gs
        (r.1, g1 :: r.2)
      | (.error e, g1) => (.error e, g1 :: gs)

/-- The client: `client.guilds.cache`. -/
structure Client where
  guilds : List Guild
deriving DecidableEq, Repr

/-- Lines 153 to 165. -/
def updateAllChannels (client : Client) (config : Config) : Async Client Unit :=
  let r := updateGuilds config client.guilds
  (r.1, { guilds := r.2 })

/-! ## The membership-event handlers and their timers -/

/-- The bot between two turns of the event loop: the state of the service
cache, the configuration, the clock in milliseconds, the due times of the
pending `setTimeout(updateAllChannels, 1000)` timers, and the start times of
the passes these timers have run. -/
structure Bot where
  client : Client
  config : Config
  now : Nat
  timeouts : List Nat
  passes : List Nat
deriving DecidableEq, Repr

/-- A membership notification.  `guildMemberUpdate` carries the role ids of
the member before and after the update. -/
inductive MemberEvent
  | guildMemberAdd
  | guildMemberRemove
  | guildMemberUpdate (oldRoles newRoles : List Str)
deriving DecidableEq, Repr

/-- The call `setTimeout(updateAllChannels, 1000)`. -/
def Bot.setTimeout (b : Bot) : Bot :=
  { b with timeouts := b.timeouts ++ [b.now + 1000] }

/-- The three handlers (lines 380 to 401). -/
def Bot.handle (b : Bot) : MemberEvent → Bot
  | .guildMemberAdd => b.setTimeout
  | .guildMemberRemove => b.setTimeout
  | .guildMemberUpdate oldRoles newRoles =>
    if oldRoles.length ≠ newRoles.length then b.setTimeout else b

/-- One timer fires at time `t`: a pass is started. -/
def Bot.fire (b : Bot) (t : Nat) : Bot :=
  { b with client := (updateAllChannels b.client b.config).2, passes := b.passes ++ [t] }

/-- The clock advances to `t`: the timers due by then fire, in the order in
which they were set. -/
def Bot.advanceTo (b : Bot) (t : Nat) : Bot :=
  let due := b.timeouts.filter (fun d => decide (d ≤ t))
  let b1 := due.foldl Bot.fire b
  { b1 with now := max b.now t, timeouts := b.timeouts.filter (fun d => decide (t < d)) }

/-- A sequence of notifications, each with its arrival time, is delivered. -/
def Bot.deliver (b : Bot) : List (Nat × MemberEvent) → Bot
  | [] => b
  | (t, e) :: rest => Bot.deliver ((b.advanceTo t).handle e) rest

/-! ## Views and examples used to state the results -/

/-- The rename requests among the requests sent: channel id and new name. -/
def renamesOf : List ApiCall → List (Str × Str)
  | [] => []
  | .setName channelId name :: cs => (channelId, name) :: renamesOf cs
  | _ :: cs => renamesOf cs

/-- The member list that `countRoleMembers` ends up counting in: the cache,
or what the fetch brings when the cache is empty. -/
def effMembers (g : Guild) : List GuildMember :=
  if g.members.length = 0 then g.roster.getD [] else g.members

/-- The count that `countRoleMembers` returns. -/
def effCount (g : Guild) (roleId : Str) : Nat :=
  match g.role? roleId with
  | none => 0
  | some role => ((effMembers g).filter (fun m => decide (role.id ∈ m.roles))).length

/-- The label that `generateChannelName` returns. -/
def labelOf (g : Guild) (roleId : Str) (nameTemplate : Option Str) : Str :=
  match g.role? roleId with
  | none => "Unknown Role".toList
  | some role =>
    render (templateOrDefault nameTemplate) (effCount g roleId) role.name roleId g.name

/-- What a step of the pass leaves alone: everything a label is computed
from. -/
structure Stable (g g1 : Guild) : Prop where
  id : g1.id = g.id
  name : g1.name = g.name
  roles : g1.roles = g.roles
  roster : g1.roster = g.roster
  members : effMembers g1 = effMembers g

/-- The rename that one step of the pass requests, if any. -/
def stepRenames (g : Guild) (roleId : Str) (roleData : RoleData) : List (Str × Str) :=
  match g.channel? roleData.channelId with
  | none => []
  | some channel =>
    if channel.type = ChannelType.GuildVoice ∧
        channel.name ≠ labelOf g roleId roleData.nameTemplate then
      [(channel.id, labelOf g roleId roleData.nameTemplate)]
    else []

/-- The channels that one step of the pass leaves. -/
def stepChannels (g : Guild) (roleId : Str) (roleData : RoleData) : List Channel :=
  match g.channel? roleData.channelId with
  | none => g.channels
  | some channel =>
    if channel.type = ChannelType.GuildVoice ∧
        channel.name ≠ labelOf g roleId roleData.nameTemplate ∧
        channel.setNameRejected = false then
      renameIn channel.id (labelOf g roleId roleData.nameTemplate) g.channels
    else g.channels

/-- The channel id a stored entry targets. -/
def entryChannel (p : Str × RoleEntry) : Str := (normalizedData p.2).channelId

/-- The service accepts the rename of every channel of the guild. -/
def Accepting (g : Guild) : Prop := ∀ ch ∈ g.channels, ch.setNameRejected = false

/-- The channel of an entry, when it is a voice channel, carries the label of
the entry. -/
def Settled (g : Guild) (p : Str × RoleEntry) : Prop :=
  ∀ ch, g.channel? (entryChannel p) = some ch → ch.type = ChannelType.GuildVoice →
    ch.name = labelOf g p.1 (normalizedData p.2).nameTemplate

/-- The renames that the pass over the entries of a guild requests. -/
def passRenames (g : Guild) : List (Str × RoleEntry) → List (Str × Str)
  | [] => []
  | p :: rest =>
    stepRenames g p.1 (normalizedData p.2) ++
      passRenames (updateVoiceChannel g p.1 (normalizedData p.2)).2 rest

/-- What the pass does to one guild. -/
def guildPass (config : Config) (g : Guild) : Guild :=
  match config.guildConfig? g.id with
  | none => g
  | some guildConfig => (updateGuildEntries g guildConfig).2

/-- The rename requests sent so far, guild by guild. -/
def Client.renames (client : Client) : List (List (Str × Str)) :=
  client.guilds.map (fun g => renamesOf g.calls)

/-- A member joins: the library adds it to the member cache of the guild. -/
def Guild.joined (g : Guild) (m : GuildMember) : Guild :=
  { g with members := g.members ++ [m] }

/-- A guild with one role held by seven members and one voice channel whose
name is still empty. -/
def sevenGuild : Guild :=
  { id := "g".toList, name := "Home".toList,
    roles := [{ id := "r".toList, name := "VIP".toList }],
    members := (List.range 7).map
      (fun i => { id := numberToString i, roles := ["r".toList] }),
    roster := none,
    channels :=
      [{ id := "c".toList, type := ChannelType.GuildVoice, name := [], setNameRejected := false }],
    created := none, calls := [] }

/-- The binding of the role of `sevenGuild` to its channel. -/
def sevenConfig : Config :=
  { trackedRoles :=
      [("g".toList,
        [("r".toList,
          RoleEntry.data
            { channelId := "c".toList, nameTemplate := some "{count} members".toList })])],
    updateInterval := 60000 }

/-- The binding of `sevenConfig` as `updateVoiceChannel` receives it. -/
def sevenData : RoleData :=
  { channelId := "c".toList, nameTemplate := some "{count} members".toList }

/-- The client that sees `sevenGuild` only. -/
def sevenClient : Client := { guilds := [sevenGuild] }

/-- The state of `sevenClient` after two passes and the arrival of an eighth
holder of the role. -/
def eightClient : Client :=
  { guilds :=
      (updateAllChannels (updateAllChannels sevenClient sevenConfig).2 sevenConfig).2.guilds.map
        (fun g => g.joined { id := "7".toList, roles := ["r".toList] }) }

/-- Textual replacement of the occurrences of `pat`, found from left to right
without overlap, by `value`: the relation between a subject and its result. -/
inductive Substituted (pat value : Str) : Str → Str → Prop
  | done : Substituted pat value [] []
  | hit (rest out : Str) : Substituted pat value rest out →
      Substituted pat value (pat ++ rest) (value ++ out)
  | miss (c : Char) (rest out : Str) : ¬ pat <+: c :: rest →
      Substituted pat value rest out → Substituted pat value (c :: rest) (c :: out)

/-- An opening brace, a name without braces, a closing brace. -/
def braceToken (w : Str) : Str := '{' :: w ++ ['}']

/-- The names of the four placeholders. -/
def placeholderNames : List Str :=
  ["count".toList, "role".toList, "roleid".toList, "guild".toList]

/-- The configuration in which every stored entry is written as the object
the pass reads it as. -/
def Config.normalized (config : Config) : Config :=
  { config with
    trackedRoles := config.trackedRoles.map
      (fun p => (p.1, p.2.map (fun q => (q.1, RoleEntry.data (normalizedData q.2))))) }

/-- A guild whose member cache is empty and whose roster request fails; its
channel carries the label of an earlier pass. -/
def outageGuild : Guild :=
  { id := "h".toList, name := "Away".toList,
    roles := [{ id := "r".toList, name := "VIP".toList }],
    members := [], roster := none,
    channels :=
      [{ id := "c".toList, type := ChannelType.GuildVoice, name := "7 members".toList,
         setNameRejected := false }],
    created := none, calls := [] }

/-- The bindings of `sevenGuild` and of `outageGuild`. -/
def bothConfig : Config :=
  { trackedRoles :=
      [("g".toList, [("r".toList, RoleEntry.data sevenData)]),
       ("h".toList, [("r".toList, RoleEntry.data sevenData)])],
    updateInterval := 60000 }

/-- A guild with three roles and a channel for each; the service rejects the
rename of the second channel. -/
def trioGuild : Guild :=
  { id := "g".toList, name := "Home".toList,
    roles := [{ id := "r1".toList, name := "Red".toList },
              { id := "r2".toList, name := "Green".toList },
              { id := "r3".toList, name := "Blue".toList }],
    members := [{ id := "m1".toList, roles := ["r1".toList, "r2".toList] },
                { id := "m2".toList, roles := ["r2".toList, "r3".toList] },
                { id := "m3".toList, roles := ["r3".toList] },
                { id := "m4".toList, roles := ["r3".toList] }],
    roster := none,
    channels :=
      [{ id := "c1".toList, type := ChannelType.GuildVoice, name := [],
         setNameRejected := false },
       { id := "c2".toList, type := ChannelType.GuildVoice, name := [],
         setNameRejected := true },
       { id := "c3".toList, type := ChannelType.GuildVoice, name := [],
         setNameRejected := false }],
    created := none, calls := [] }

/-- The three bindings of `trioGuild`, the third in the legacy format. -/
def trioEntries : List (Str × RoleEntry) :=
  [("r1".toList, RoleEntry.data { channelId := "c1".toList, nameTemplate := none }),
   ("r2".toList, RoleEntry.data { channelId := "c2".toList, nameTemplate := none }),
   ("r3".toList, RoleEntry.legacy "c3".toList)]

/-- The notifications for which a handler schedules a pass: a join, a leave,
and an update that changes the number of roles of the member. -/
def MemberEvent.schedules : MemberEvent → Bool
  | .guildMemberAdd => true
  | .guildMemberRemove => true
  | .guildMemberUpdate oldRoles newRoles => decide (oldRoles.length ≠ newRoles.length)

/-- The bot at start: `sevenClient`, no pending timer, no pass run. -/
def idleBot : Bot :=
  { client := sevenClient, config := sevenConfig, now := 0, timeouts := [], passes := [] }

/-- Three notifications within a fifth of a second. -/
def burst : List (Nat × MemberEvent) :=
  [(0, MemberEvent.guildMemberAdd), (100, MemberEvent.guildMemberRemove),
   (200, MemberEvent.guildMemberUpdate [] ["r".toList])]

/-- The guild `sevenGuild` once its role is deleted. -/
def noRoleGuild : Guild := { sevenGuild with roles := [] }

/-- The guild `sevenGuild` once every member has lost the role. -/
def zeroGuild : Guild :=
  { sevenGuild with
    members := (List.range 7).map (fun i => { id := numberToString i, roles := [] }) }

/-- A guild whose only channel is a text channel. -/
def textGuild : Guild :=
  { sevenGuild with
    channels :=
      [{ id := "c".toList, type := ChannelType.GuildText, name := "general".toList,
         setNameRejected := false }] }

/-! ## Passes in progress

`updateAllChannels` is an `async` function and nothing in `src/index.js`
records that a pass is running: the periodic timer (line 254), the timers of
the membership handlers and the `updateall` command (line 370) all call it
directly.  A pass gives the event loop back while it awaits the answer to a
request, and another call can start then.  The engine below follows passes at
that grain: a pass runs until it sends a rename, is suspended until the answer
arrives, and goes on.  The roster request of `countRoleMembers` is taken to be
answered at once. -/

/-- A binding that a pass has still to process: the position of the guild in
`client.guilds`, the role id and the stored entry. -/
abbrev WorkItem := Nat × Str × RoleEntry

/-- The bindings of the guilds from position `i` on, in the order of the two
loops of `updateAllChannels`. -/
def workListFrom (config : Config) : Nat → List Guild → List WorkItem
  | _, [] => []
  | i, g :: gs =>
    ((config.guildConfig? g.id).getD []).map (fun p => (i, p.1, p.2)) ++
      workListFrom config (i + 1) gs

/-- The bindings that a pass goes through. -/
def workList (client : Client) (config : Config) : List WorkItem :=
  workListFrom config 0 client.guilds

/-- The part of `updateVoiceChannel` that runs before `channel.setName` is
awaited: the guild it leaves, with the request logged and the channel not yet
renamed, and the rename that was sent, if any. -/
def updateVoiceChannelRequest (g : Guild) (roleId : Str) (roleData : RoleData) :
    Option (Channel × Str) × Guild :=
  match g.channel? roleData.channelId with
  | none => (none, g)
  | some channel =>
    if channel.type ≠ ChannelType.GuildVoice then (none, g)
    else
      match generateChannelName g roleId roleData.nameTemplate with
      | (.error _, g1) => (none, g1)
      | (.ok newName, g1) =>
        if channel.name ≠ newName then
          (some (channel, newName),
            { g1 with calls := g1.calls ++ [ApiCall.setName channel.id newName] })
        else (none, g1)

/-- The part of `updateVoiceChannel` that runs when the answer to the rename
arrives: the channel takes the name, or the rejection is caught and logged. -/
def updateVoiceChannelAnswer (g : Guild) (channel : Channel) (newName : Str) : Guild :=
  if channel.setNameRejected then g
  else { g with channels := renameIn channel.id newName g.channels }

/-- A pass that awaits the answer to a rename. -/
structure Suspended where
  pass : Nat
  guild : Nat
  channel : Channel
  newName : Str
  rest : List WorkItem
deriving DecidableEq, Repr

/-- What happens to a pass. -/
inductive PassEvent
  | started (pass : Nat)
  | finished (pass : Nat)
deriving DecidableEq, Repr

/-- The engine: the client, the configuration, the passes that await an
answer, the number of the next pass, and what happened so far. -/
structure Engine where
  client : Client
  config : Config
  suspended : List Suspended
  next : Nat
  trace : List PassEvent
deriving DecidableEq, Repr

/-- The pass `pass` goes through the bindings `items` until it has sent a
rename, or to the end. -/
def Engine.run (pass : Nat) : List WorkItem → Engine → Engine
  | [], e => { e with trace := e.trace ++ [PassEvent.finished pass] }
  | (i, roleId, entry) :: rest, e =>
    match e.client.guilds[i]? with
    | none => Engine.run pass rest e
    | some g =>
      match updateVoiceChannelRequest g roleId (normalizedData entry) with
      | (none, g1) =>
        Engine.run pass rest { e with client := { guilds := e.client.guilds.set i g1 } }
      | (some (channel, newName), g1) =>
        { e with
          client := { guilds := e.client.guilds.set i g1 },
          suspended := e.suspended ++
            [{ pass := pass, guild := i, channel := channel, newName := newName,
               rest := rest }] }

/-- A call of `updateAllChannels`, by a timer or by the `updateall` command. -/
def Engine.start (e : Engine) : Engine :=
  Engine.run e.next (workList e.client e.config)
    { e with next := e.next + 1, trace := e.trace ++ [PassEvent.started e.next] }

/-- The answer to the rename that the pass `pass` awaits arrives. -/
def Engine.answer (e : Engine) (pass : Nat) : Engine :=
  match e.suspended.find? (fun s => decide (s.pass = pass)) with
  | none => e
  | some s =>
    let guilds :=
      match e.client.guilds[s.guild]? with
      | none => e.client.guilds
      | some g => e.client.guilds.set s.guild (updateVoiceChannelAnswer g s.channel s.newName)
    Engine.run pass s.rest
      { e with
        client := { guilds := guilds },
        suspended := e.suspended.filter (fun s => decide (s.pass ≠ pass)) }

/-- The engine at start on `sevenClient`: no pass in progress. -/
def idleEngine : Engine :=
  { client := sevenClient, config := sevenConfig, suspended := [], next := 0, trace := [] }

/-! ## The command handler (lines 262 to 374) -/

/-- The test `if (entry)` on a stored entry: an object passes, a bare string
passes unless it is empty. -/
def RoleEntry.truthy : RoleEntry → Bool
  | .legacy channelId => decide (channelId ≠ [])
  | .data _ => true

/-- The channel id of a stored entry (lines 308 and 329). -/
def RoleEntry.channelId : RoleEntry → Str
  | .legacy channelId => channelId
  | .data roleData => roleData.channelId

/-- The lookup `config.trackedRoles[guildId][roleId]`. -/
def Config.entry? (config : Config) (guildId roleId : Str) : Option RoleEntry :=
  (config.guildConfig? guildId).bind
    (fun es => (es.find? (fun q => decide (q.1 = roleId))).map Prod.snd)

/-- The test `config.trackedRoles[guildId][roleId]` of the commands. -/
def Config.tracked (config : Config) (guildId roleId : Str) : Bool :=
  match config.entry? guildId roleId with
  | none => false
  | some entry => entry.truthy

/-- The entries of a guild after `entries[roleId] = entry`. -/
def setIn (roleId : Str) (entry : RoleEntry) : List (Str × RoleEntry) → List (Str × RoleEntry)
  | [] => [(roleId, entry)]
  | q :: qs => if q.1 = roleId then (roleId, entry) :: qs else q :: setIn roleId entry qs

/-- The tracked roles after the entries of the guild `guildId` became `f` of
what they were. -/
def updateGuildConfig (guildId : Str) (f : List (Str × RoleEntry) → List (Str × RoleEntry)) :
    List (Str × List (Str × RoleEntry)) → List (Str × List (Str × RoleEntry))
  | [] => []
  | p :: ps =>
    if p.1 = guildId then (p.1, f p.2) :: ps else p :: updateGuildConfig guildId f ps

/-- Lines 272 to 274: a guild without entries gets the empty object. -/
def Config.ensureGuild (config : Config) (guildId : Str) : Config :=
  match config.guildConfig? guildId with
  | none => { config with trackedRoles := config.trackedRoles ++ [(guildId, [])] }
  | some _ => config

/-- The assignment `config.trackedRoles[guildId][roleId] = entry`. -/
def Config.setEntry (config : Config) (guildId roleId : Str) (entry : RoleEntry) : Config :=
  { config with
    trackedRoles := updateGuildConfig guildId (setIn roleId entry) config.trackedRoles }

/-- The statement `delete config.trackedRoles[guildId][roleId]`. -/
def Config.deleteEntry (config : Config) (guildId roleId : Str) : Config :=
  { config with
    trackedRoles := updateGuildConfig guildId
      (fun es => es.filter (fun q => decide (q.1 ≠ roleId))) config.trackedRoles }

/-- The slash commands with their options. -/
inductive Command
  | addrole (role : Role) (template : Option Str)
  | removerole (role : Role)
  | settemplate (role : Role) (template : Str)
  | listroles
  | setinterval (seconds : Nat)
  | updateall
deriving DecidableEq, Repr

/-- The replies of the handler. -/
inductive Reply
  | noPermission
  | alreadyTracked
  | added (channelName : Str)
  | createFailed
  | notTracked
  | removed
  | templateSet
  | noRoles
  | roleList (lines : List (Str × Nat × Option Str))
  | intervalSet
  | updated
deriving DecidableEq, Repr

/-- The process: the client, the configuration in memory, what `saveConfig`
wrote to `config.json` (oldest first) and the replies sent. -/
structure App where
  client : Client
  config : Config
  written : List Config
  replies : List Reply
deriving DecidableEq, Repr

/-- An interaction received in a guild.  `guild` is the position of
`interaction.guild` in `client.guilds` (out of range when the guild is not in
the cache), `manageChannels` the outcome of the permission test, and
`deleteRejected` tells whether the service rejects the deletion of a channel
that the command asks for. -/
structure Interaction where
  isChatInputCommand : Bool
  manageChannels : Bool
  guildId : Str
  guild : Nat
  command : Command
  deleteRejected : Bool
deriving DecidableEq, Repr

/-- Lines 48 to 50. -/
def App.saveConfig (app : App) : App :=
  { app with written := app.written ++ [app.config] }

/-- The call `interaction.reply`. -/
def App.reply (app : App) (r : Reply) : App :=
  { app with replies := app.replies ++ [r] }

/-- The client after the guild at position `i` became `g`. -/
def App.withGuild (app : App) (i : Nat) (g : Guild) : App :=
  { app with client := { guilds := app.client.guilds.set i g } }

/-- The case `addrole` (lines 277 to 297).  Without a guild in the cache
`createVoiceChannel` catches the type error and returns `null`. -/
def addroleCommand (app : App) (i : Interaction) (roleToAdd : Role)
    (templateOption : Option Str) : Async App Unit :=
  let template := templateOrDefault templateOption
  if app.config.tracked i.guildId roleToAdd.id then (.ok (), app.reply Reply.alreadyTracked)
  else
    match app.client.guilds[i.guild]? with
    | none => (.ok (), app.reply Reply.createFailed)
    | some g =>
      match createVoiceChannel g roleToAdd.id (some template) with
      | (.error e, g1) => (.error e, app.withGuild i.guild g1)
      | (.ok none, g1) => (.ok (), (app.withGuild i.guild g1).reply Reply.createFailed)
      | (.ok (some newChannel), g1) =>
        let app1 := app.withGuild i.guild g1
        let app2 :=
          { app1 with
            config := app1.config.setEntry i.guildId roleToAdd.id
              (RoleEntry.data { channelId := newChannel.id, nameTemplate := some template }) }
        (.ok (), app2.saveConfig.reply (Reply.added newChannel.name))

/-- The case `removerole` (lines 299 to 317). -/
def removeroleCommand (app : App) (i : Interaction) (roleToRemove : Role) : Async App Unit :=
  match app.config.entry? i.guildId roleToRemove.id with
  | none => (.ok (), app.reply Reply.notTracked)
  | some roleData =>
    if !roleData.truthy then (.ok (), app.reply Reply.notTracked)
    else
      match app.client.guilds[i.guild]? with
      | none => (.error JsError.typeError, app)
      | some g =>
        let finish (app1 : App) : Async App Unit :=
          let app2 :=
            { app1 with config := app1.config.deleteEntry i.guildId roleToRemove.id }
          (.ok (), app2.saveConfig.reply Reply.removed)
        match g.channel? roleData.channelId with
        | none => finish app
        | some channelToDelete =>
          let g1 := { g with calls := g.calls ++ [ApiCall.channelDelete channelToDelete.id] }
          if i.deleteRejected then (.error JsError.deleteFailed, app.withGuild i.guild g1)
          else
            finish (app.withGuild i.guild
              { g1 with
                channels := g1.channels.filter
                  (fun c => decide (c.id ≠ channelToDelete.id)) })

/-- The case `settemplate` (lines 319 to 341).  Without a guild in the cache
`updateVoiceChannel` catches the type error. -/
def settemplateCommand (app : App) (i : Interaction) (roleToSet : Role) (newTemplate : Str) :
    Async App Unit :=
  match app.config.entry? i.guildId roleToSet.id with
  | none => (.ok (), app.reply Reply.notTracked)
  | some existingData =>
    if !existingData.truthy then (.ok (), app.reply Reply.notTracked)
    else
      let updatedRoleData : RoleData :=
        { channelId := existingData.channelId, nameTemplate := some newTemplate }
      let app1 :=
        { app with
          config := app.config.setEntry i.guildId roleToSet.id
            (RoleEntry.data updatedRoleData) }
      let app2 := app1.saveConfig
      match app2.client.guilds[i.guild]? with
      | none => (.ok (), app2.reply Reply.templateSet)
      | some g =>
        match updateVoiceChannel g roleToSet.id updatedRoleData with
        | (.error e, g1) => (.error e, app2.withGuild i.guild g1)
        | (.ok _, g1) => (.ok (), (app2.withGuild i.guild g1).reply Reply.templateSet)

/-- The loop of the case `listroles` (lines 351 to 358): the lines of the list
(role name, count, template if the entry has one) and the guild that the count
requests leave. -/
def listrolesLines (g : Guild) :
    List (Str × RoleEntry) → List (Str × Nat × Option Str) × Guild
  | [] => ([], g)
  | (roleId, roleData) :: rest =>
    match countRoleMembers g roleId with
    | (.error _, g1) => listrolesLines g1 rest
    | (.ok memberCount, g1) =>
      let template :=
        match roleData with
        | .legacy _ => some defaultTemplate
        | .data d => d.nameTemplate
      let r := listrolesLines g1 rest
      match g.role? roleId with
      | none => r
      | some role => ((role.name, memberCount, template) :: r.1, r.2)

/-- The case `listroles` (lines 343 to 360). -/
def listrolesCommand (app : App) (i : Interaction) : Async App Unit :=
  match app.config.guildConfig? i.guildId with
  | none => (.ok (), app.reply Reply.noRoles)
  | some trackedRoles =>
    if trackedRoles.length = 0 then (.ok (), app.reply Reply.noRoles)
    else
      match app.client.guilds[i.guild]? with
      | none => (.error JsError.typeError, app)
      | some g =>
        let r := listrolesLines g trackedRoles
        (.ok (), (app.withGuild i.guild r.2).reply (Reply.roleList r.1))

/-- The case `setinterval` (lines 362 to 367). -/
def setintervalCommand (app : App) (seconds : Nat) : Async App Unit :=
  let app1 := { app with config := { app.config with updateInterval := seconds * 1000 } }
  (.ok (), app1.saveConfig.reply Reply.intervalSet)

/-- The case `updateall` (lines 369 to 372). -/
def updateallCommand (app : App) : Async App Unit :=
  match updateAllChannels app.client app.config with
  | (.error e, client) => (.error e, { app with client := client })
  | (.ok _, client) => (.ok (), { app with client := client }.reply Reply.updated)

/-- The handler of `interactionCreate` (lines 262 to 374). -/
def interactionCreate (app : App) (i : Interaction) : Async App Unit :=
  if !i.isChatInputCommand then (.ok (), app)
  else if !i.manageChannels then (.ok (), app.reply Reply.noPermission)
  else
    let app1 := { app with config := app.config.ensureGuild i.guildId }
    match i.command with
    | .addrole role template => addroleCommand app1 i role template
    | .removerole role => removeroleCommand app1 i role
    | .settemplate role template => settemplateCommand app1 i role template
    | .listroles => listrolesCommand app1 i
    | .setinterval seconds => setintervalCommand app1 seconds
    | .updateall => updateallCommand app1

/-- The role that a command binds, unbinds or rebinds. -/
def Command.role? : Command → Option Role
  | .addrole role _ => some role
  | .removerole role => some role
  | .settemplate role _ => some role
  | _ => none

/-- No key occurs twice: one entry list per guild, one entry per role. -/
def Config.WellKeyed (config : Config) : Prop :=
  (config.trackedRoles.map Prod.fst).Nodup ∧
    ∀ p ∈ config.trackedRoles, (p.2.map Prod.fst).Nodup

/-- The guild `sevenGuild` with a second role, in which the service creates
the channel `n` on request. -/
def creatingGuild : Guild :=
  { sevenGuild with
    roles := [{ id := "r".toList, name := "VIP".toList },
              { id := "s".toList, name := "Staff".toList }],
    created := some "n".toList }

/-- The process on `creatingGuild` with the binding of `sevenConfig`. -/
def creatingApp : App :=
  { client := { guilds := [creatingGuild] }, config := sevenConfig, written := [],
    replies := [] }

/-- The process on `sevenGuild`, in which the service creates no channel. -/
def failingApp : App :=
  { client := sevenClient, config := sevenConfig, written := [], replies := [] }

/-- The command `addrole` for the role `s`, without template. -/
def addStaff : Interaction :=
  { isChatInputCommand := true, manageChannels := true, guildId := "g".toList, guild := 0,
    command := Command.addrole { id := "s".toList, name := "Staff".toList } none,
    deleteRejected := false }

/-- The command `addrole` for the role `r`, which `sevenConfig` tracks. -/
def addVip : Interaction :=
  { isChatInputCommand := true, manageChannels := true, guildId := "g".toList, guild := 0,
    command := Command.addrole { id := "r".toList, name := "VIP".toList }
      (some "{count}".toList),
    deleteRejected := false }

/-! ## Simultaneous substitution -/

/-- The four placeholders, in the order in which `generateChannelName`
substitutes them. -/
inductive Placeholder
  | count
  | role
  | roleid
  | guild
deriving DecidableEq, Repr

/-- The name of a placeholder. -/
def Placeholder.name : Placeholder → Str
  | .count => "count".toList
  | .role => "role".toList
  | .roleid => "roleid".toList
  | .guild => "guild".toList

/-- The token of a placeholder: its name in braces. -/
def Placeholder.token (p : Placeholder) : Str := braceToken p.name

/-- The placeholder whose token starts the string, if there is one. -/
def placeholderAt (s : Str) : Option Placeholder :=
  if Placeholder.count.token.isPrefixOf s then some Placeholder.count
  else if Placeholder.role.token.isPrefixOf s then some Placeholder.role
  else if Placeholder.roleid.token.isPrefixOf s then some Placeholder.roleid
  else if Placeholder.guild.token.isPrefixOf s then some Placeholder.guild
  else none

/-- The scan of the simultaneous substitution: one pass over the template from
left to right; where a token starts, its value is written and the token is
passed over (`skip` counts what is left of it), elsewhere the character is
copied.  What is written is not scanned. -/
def simultaneousGo (value : Placeholder → Str) : Nat → Str → Str
  | _, [] => []
  | skip + 1, _ :: rest => simultaneousGo value skip rest
  | 0, c :: rest =>
    match placeholderAt (c :: rest) with
    | some p => value p ++ simultaneousGo value (p.token.length - 1) rest
    | none => c :: simultaneousGo value 0 rest

/-- The values of the four placeholders for a binding. -/
def placeholderValue (memberCount : Nat) (roleName roleId guildName : Str) :
    Placeholder → Str
  | .count => numberToString memberCount
  | .role => roleName
  | .roleid => roleId
  | .guild => guildName

/-- The single-pass simultaneous substitution of the four tokens in a
template. -/
def simultaneous (template : Str) (memberCount : Nat) (roleName roleId guildName : Str) :
    Str :=
  simultaneousGo (placeholderValue memberCount roleName roleId guildName) 0 template

/-- A piece of a template: a character that is copied, or a token. -/
inductive Segment
  | lit (c : Char)
  | tok (p : Placeholder)
deriving DecidableEq, Repr

/-- The pieces that the scan of the simultaneous substitution sees. -/
def segmentsGo : Nat → Str → List Segment
  | _, [] => []
  | skip + 1, _ :: rest => segmentsGo skip rest
  | 0, c :: rest =>
    match placeholderAt (c :: rest) with
    | some p => Segment.tok p :: segmentsGo (p.token.length - 1) rest
    | none => Segment.lit c :: segmentsGo 0 rest

/-- The text of a list of pieces when the token `p` is written as `e p`. -/
def emitWith (e : Placeholder → Str) : List Segment → Str
  | [] => []
  | .lit c :: rest => c :: emitWith e rest
  | .tok p :: rest => e p ++ emitWith e rest

/-- No token starts at a piece that is a character. -/
def Parsed : List Segment → Prop
  | [] => True
  | .lit c :: rest =>
    (∀ q : Placeholder, ¬ q.token <+: c :: emitWith Placeholder.token rest) ∧ Parsed rest
  | .tok _ :: rest => Parsed rest

/-- The guild `sevenGuild` with a second role, which nobody holds. -/
def sharedGuild : Guild :=
  { sevenGuild with
    roles := [{ id := "r".toList, name := "VIP".toList },
              { id := "q".toList, name := "Staff".toList }] }

/-- Two bindings of `sharedGuild` that target the same channel. -/
def sharedConfig : Config :=
  { trackedRoles :=
      [("g".toList,
        [("r".toList, RoleEntry.data sevenData), ("q".toList, RoleEntry.data sevenData)])],
    updateInterval := 60000 }

/-- The guild `sevenGuild` with its role renamed to `$&`. -/
def dollarGuild : Guild :=
  { sevenGuild with roles := [{ id := "r".toList, name := "$&".toList }] }

/-- The guild `sevenGuild` with its role renamed to `{guild}`. -/
def braceGuild : Guild :=
  { sevenGuild with roles := [{ id := "r".toList, name := "{guild}".toList }] }

/-- The guild `sevenGuild` while the rename of a first pass is awaited: the
request is logged and the channel has not taken the name yet. -/
def awaitingGuild : Guild :=
  { sevenGuild with calls := [ApiCall.setName "c".toList "7 members".toList] }

/-! ## Theorems -/

theorem Stable.refl (g : Guild) : Stable g g := ⟨rfl, rfl, rfl, rfl, rfl⟩

theorem Stable.trans {a b c : Guild} (h1 : Stable a b) (h2 : Stable b c) : Stable a c :=
  ⟨h2.id.trans h1.id, h2.name.trans h1.name, h2.roles.trans h1.roles,
    h2.roster.trans h1.roster, h2.members.trans h1.members⟩

theorem Stable.role? {g g1 : Guild} (h : Stable g g1) (roleId : Str) :
    g1.role? roleId = g.role? roleId := by
  simp [Guild.role?, h.roles]

theorem Stable.effCount {g g1 : Guild} (h : Stable g g1) (roleId : Str) :
    effCount g1 roleId = effCount g roleId := by
  simp [RoleCounter.effCount, h.role?, h.members]

theorem Stable.labelOf {g g1 : Guild} (h : Stable g g1) (roleId : Str) (t : Option Str) :
    labelOf g1 roleId t = labelOf g roleId t := by
  simp [RoleCounter.labelOf, h.role?, h.effCount, h.name]

theorem renamesOf_append (xs ys : List ApiCall) :
    renamesOf (xs ++ ys) = renamesOf xs ++ renamesOf ys := by
  induction xs with
  | nil => rfl
  | cons x xs ih => cases x <;> simp [renamesOf, ih]

theorem Guild.role?_id {g : Guild} {roleId : Str} {role : Role}
    (h : g.role? roleId = some role) : role.id = roleId := by
  have := List.find?_some h
  simpa using this

theorem Guild.channel?_id {g : Guild} {channelId : Str} {channel : Channel}
    (h : g.channel? channelId = some channel) : channel.id = channelId := by
  have := List.find?_some h
  simpa using this

/-- The resolver always returns a count, and leaves the label inputs, the
channels and the rename log as they were. -/
theorem countRoleMembers_spec (g : Guild) (roleId : Str) :
    ∃ g1, countRoleMembers g roleId = (.ok (effCount g roleId), g1) ∧ Stable g g1 ∧
      g1.channels = g.channels ∧ renamesOf g1.calls = renamesOf g.calls := by
  unfold countRoleMembers effCount
  cases hr : g.role? roleId with
  | none => exact ⟨g, rfl, Stable.refl g, rfl, rfl⟩
  | some role =>
    by_cases hm : g.members.length = 0
    · cases hf : g.roster with
      | none =>
        refine ⟨{ g with calls := g.calls ++ [ApiCall.membersFetch] }, ?_, ?_, rfl, ?_⟩
        · simp [hm, membersFetch, hf, effMembers]
        · exact ⟨rfl, rfl, rfl, rfl, by simp [effMembers]⟩
        · simp [renamesOf_append, renamesOf]
      | some ms =>
        refine ⟨{ g with calls := g.calls ++ [ApiCall.membersFetch], members := ms }, ?_, ?_,
          rfl, ?_⟩
        · simp [hm, membersFetch, hf, effMembers, roleMembersSize]
        · refine ⟨rfl, rfl, rfl, rfl, ?_⟩
          simp only [effMembers, hm, hf]
          by_cases h0 : ms.length = 0
          · simp [h0, List.length_eq_zero.mp h0]
          · simp [h0]
        · simp [renamesOf_append, renamesOf]
    · refine ⟨g, ?_, Stable.refl g, rfl, rfl⟩
      simp [hm, effMembers, roleMembersSize]

/-- The label generator always returns a label, the one `labelOf` describes. -/
theorem generateChannelName_spec (g : Guild) (roleId : Str) (t : Option Str) :
    ∃ g1, generateChannelName g roleId t = (.ok (labelOf g roleId t), g1) ∧ Stable g g1 ∧
      g1.channels = g.channels ∧ renamesOf g1.calls = renamesOf g.calls := by
  unfold generateChannelName labelOf
  cases hr : g.role? roleId with
  | none => exact ⟨g, rfl, Stable.refl g, rfl, rfl⟩
  | some role =>
    obtain ⟨g1, h1, hs, hc, hl⟩ := countRoleMembers_spec g roleId
    refine ⟨g1, ?_, hs, hc, hl⟩
    simp [h1, hs.name]

/-- One step of the pass never throws; it sends the rename `stepRenames`
describes and leaves the channels `stepChannels` describes. -/
theorem updateVoiceChannel_spec (g : Guild) (roleId : Str) (roleData : RoleData) :
    ∃ g2, updateVoiceChannel g roleId roleData = (.ok (), g2) ∧ Stable g g2 ∧
      g2.channels = stepChannels g roleId roleData ∧
      renamesOf g2.calls = renamesOf g.calls ++ stepRenames g roleId roleData := by
  unfold updateVoiceChannel updateVoiceChannelBody stepChannels stepRenames
  cases hc : g.channel? roleData.channelId with
  | none => exact ⟨g, rfl, Stable.refl g, rfl, by simp⟩
  | some channel =>
    by_cases hty : channel.type = ChannelType.GuildVoice
    · obtain ⟨g1, h1, hs, hch, hl⟩ := generateChannelName_spec g roleId roleData.nameTemplate
      by_cases hn : channel.name = labelOf g roleId roleData.nameTemplate
      · exact ⟨g1, by simp [hty, h1, hn], hs, by simp [hty, hn, hch], by simp [hty, hn, hl]⟩
      · cases hrej : channel.setNameRejected with
        | true =>
          refine ⟨{ g1 with calls := g1.calls ++
            [ApiCall.setName channel.id (labelOf g roleId roleData.nameTemplate)] }, ?_, ?_, ?_, ?_⟩
          · simp [hty, h1, hn, setName, hrej]
          · exact ⟨hs.id, hs.name, hs.roles, hs.roster, hs.members⟩
          · simp [hty, hn, hrej, hch]
          · simp [hty, hn, renamesOf_append, renamesOf, hl]
        | false =>
          refine ⟨{ g1 with
            calls := g1.calls ++
              [ApiCall.setName channel.id (labelOf g roleId roleData.nameTemplate)],
            channels := renameIn channel.id (labelOf g roleId roleData.nameTemplate)
              g1.channels }, ?_, ?_, ?_, ?_⟩
          · simp [hty, h1, hn, setName, hrej]
          · exact ⟨hs.id, hs.name, hs.roles, hs.roster, hs.members⟩
          · simp [hty, hn, hrej, hch]
          · simp [hty, hn, renamesOf_append, renamesOf, hl]
    · exact ⟨g, by simp [hty], Stable.refl g, by simp [hty], by simp [hty]⟩

/-- C1: for a binding whose target channel exists and is a voice channel,
`updateVoiceChannel` obtains a label from `generateChannelName` and sends
exactly one rename, to that label, when the label differs from the name of
the channel, and no rename at all when the two are identical. -/
theorem updateVoiceChannel_renames_iff_differs (g : Guild) (roleId : Str)
    (roleData : RoleData) (channel : Channel)
    (hch : g.channel? roleData.channelId = some channel)
    (hty : channel.type = ChannelType.GuildVoice) :
    ∃ newName, (generateChannelName g roleId roleData.nameTemplate).1 = .ok newName ∧
      (updateVoiceChannel g roleId roleData).1 = .ok () ∧
      renamesOf (updateVoiceChannel g roleId roleData).2.calls =
        renamesOf g.calls ++
          (if channel.name ≠ newName then [(roleData.channelId, newName)] else []) := by
  obtain ⟨g1, h1, -, -, -⟩ := generateChannelName_spec g roleId roleData.nameTemplate
  obtain ⟨g2, h2, -, -, hr⟩ := updateVoiceChannel_spec g roleId roleData
  refine ⟨labelOf g roleId roleData.nameTemplate, by rw [h1], by rw [h2], ?_⟩
  rw [h2]
  simp only [hr, stepRenames, hch, hty, true_and, Guild.channel?_id hch]

theorem find?_renameIn_ne {c c2 : Str} (n : Str) (h : c ≠ c2) (cs : List Channel) :
    (renameIn c n cs).find? (fun x => decide (x.id = c2)) =
      cs.find? (fun x => decide (x.id = c2)) := by
  induction cs with
  | nil => rfl
  | cons x xs ih =>
    unfold renameIn
    by_cases hx : x.id = c
    · have : ¬ x.id = c2 := fun h2 => h (hx.symm.trans h2)
      simp [hx, List.find?_cons, h]
    · simp [hx, List.find?_cons, ih]

theorem find?_renameIn_eq {c : Str} (n : Str) {cs : List Channel} {ch : Channel}
    (h : cs.find? (fun x => decide (x.id = c)) = some ch) :
    (renameIn c n cs).find? (fun x => decide (x.id = c)) = some { ch with name := n } := by
  induction cs with
  | nil => simp at h
  | cons x xs ih =>
    unfold renameIn
    by_cases hx : x.id = c
    · simp [hx, List.find?_cons] at h ⊢
      subst h
      simp [hx]
    · simp [hx, List.find?_cons] at h ⊢
      exact ih h

theorem renameIn_accepting {c n : Str} {cs : List Channel}
    (h : ∀ ch ∈ cs, ch.setNameRejected = false) :
    ∀ ch ∈ renameIn c n cs, ch.setNameRejected = false := by
  induction cs with
  | nil => simp [renameIn]
  | cons x xs ih =>
    unfold renameIn
    by_cases hx : x.id = c
    · intro ch hch
      simp [hx] at hch
      rcases hch with rfl | hch
      · exact h x (List.mem_cons_self _ _)
      · exact h ch (List.mem_cons_of_mem _ hch)
    · intro ch hch
      simp [hx] at hch
      rcases hch with rfl | hch
      · exact h _ (List.mem_cons_self _ _)
      · exact ih (fun y hy => h y (List.mem_cons_of_mem _ hy)) ch hch

theorem Guild.channel?_mem {g : Guild} {c : Str} {ch : Channel}
    (h : g.channel? c = some ch) : ch ∈ g.channels :=
  List.mem_of_find?_eq_some h

/-- The two outcomes of a step for the channels: nothing changes, or the
targeted voice channel, whose name differed from the label, is renamed. -/
theorem stepChannels_cases (g : Guild) (roleId : Str) (roleData : RoleData) :
    (stepChannels g roleId roleData = g.channels ∧
      ∀ channel, g.channel? roleData.channelId = some channel →
        channel.type = ChannelType.GuildVoice → channel.setNameRejected = false →
        channel.name = labelOf g roleId roleData.nameTemplate) ∨
    (∃ channel, g.channel? roleData.channelId = some channel ∧
      channel.type = ChannelType.GuildVoice ∧
      stepChannels g roleId roleData =
        renameIn roleData.channelId (labelOf g roleId roleData.nameTemplate) g.channels) := by
  unfold stepChannels
  cases hc : g.channel? roleData.channelId with
  | none => exact Or.inl ⟨rfl, fun _ h => by cases h⟩
  | some channel =>
    by_cases hcond : channel.type = ChannelType.GuildVoice ∧
        channel.name ≠ labelOf g roleId roleData.nameTemplate ∧
        channel.setNameRejected = false
    · refine Or.inr ⟨channel, rfl, hcond.1, ?_⟩
      simp only [hcond, ne_eq, not_false_eq_true, and_self, if_true, Guild.channel?_id hc]
    · refine Or.inl ⟨by simp only [hcond, if_false], ?_⟩
      intro ch hch hty hrej
      cases hch
      by_contra hn
      exact hcond ⟨hty, hn, hrej⟩

/-- A step leaves the channels it does not target as they were. -/
theorem step_frame (g : Guild) (roleId : Str) (roleData : RoleData) {c2 : Str}
    (h : roleData.channelId ≠ c2) :
    (updateVoiceChannel g roleId roleData).2.channel? c2 = g.channel? c2 := by
  obtain ⟨g2, h2, -, hch, -⟩ := updateVoiceChannel_spec g roleId roleData
  rw [h2]
  unfold Guild.channel?
  simp only [hch]
  rcases stepChannels_cases g roleId roleData with ⟨he, -⟩ | ⟨_, -, -, he⟩
  · rw [he]
  · rw [he]
    exact find?_renameIn_ne _ h _

/-- A step keeps every rename acceptable. -/
theorem step_accepting (g : Guild) (roleId : Str) (roleData : RoleData) (h : Accepting g) :
    Accepting (updateVoiceChannel g roleId roleData).2 := by
  obtain ⟨g2, h2, -, hch, -⟩ := updateVoiceChannel_spec g roleId roleData
  rw [h2]
  unfold Accepting
  simp only [hch]
  rcases stepChannels_cases g roleId roleData with ⟨he, -⟩ | ⟨_, -, -, he⟩
  · rw [he]
    exact h
  · rw [he]
    exact renameIn_accepting h

/-- A step leaves the label inputs as they were. -/
theorem step_stable (g : Guild) (roleId : Str) (roleData : RoleData) :
    Stable g (updateVoiceChannel g roleId roleData).2 := by
  obtain ⟨g2, h2, hs, -, -⟩ := updateVoiceChannel_spec g roleId roleData
  rw [h2]
  exact hs

/-- After a step on a guild that accepts renames, the targeted voice channel
carries the label. -/
theorem step_settles (g : Guild) (p : Str × RoleEntry) (h : Accepting g) :
    Settled (updateVoiceChannel g p.1 (normalizedData p.2)).2 p := by
  obtain ⟨g2, h2, hs, hch, -⟩ := updateVoiceChannel_spec g p.1 (normalizedData p.2)
  rw [h2]
  intro ch hlook hty
  rw [hs.labelOf]
  unfold Guild.channel? entryChannel at hlook
  simp only [hch] at hlook
  rcases stepChannels_cases g p.1 (normalizedData p.2) with ⟨he, hname⟩ | ⟨channel, hc, -, he⟩
  · rw [he] at hlook
    exact hname ch hlook hty (h ch (List.mem_of_find?_eq_some hlook))
  · rw [he] at hlook
    have hc2 : g.channels.find? (fun x => decide (x.id = (normalizedData p.2).channelId))
        = some channel := hc
    rw [find?_renameIn_eq _ hc2] at hlook
    cases hlook
    rfl

theorem updateGuildEntries_cons (g : Guild) (p : Str × RoleEntry)
    (rest : List (Str × RoleEntry)) :
    updateGuildEntries g (p :: rest) =
      updateGuildEntries (updateVoiceChannel g p.1 (normalizedData p.2)).2 rest := by
  obtain ⟨g2, h2, -, -, -⟩ := updateVoiceChannel_spec g p.1 (normalizedData p.2)
  obtain ⟨roleId, entry⟩ := p
  simp only [updateGuildEntries, h2]

/-- The pass over the entries of a guild never throws. -/
theorem updateGuildEntries_ok (g : Guild) (es : List (Str × RoleEntry)) :
    (updateGuildEntries g es).1 = .ok () := by
  induction es generalizing g with
  | nil => rfl
  | cons p rest ih => rw [updateGuildEntries_cons]; exact ih _

theorem pass_stable (g : Guild) (es : List (Str × RoleEntry)) :
    Stable g (updateGuildEntries g es).2 := by
  induction es generalizing g with
  | nil => exact Stable.refl g
  | cons p rest ih =>
    rw [updateGuildEntries_cons]
    exact (step_stable g p.1 _).trans (ih _)

theorem pass_renames (g : Guild) (es : List (Str × RoleEntry)) :
    renamesOf (updateGuildEntries g es).2.calls = renamesOf g.calls ++ passRenames g es := by
  induction es generalizing g with
  | nil => simp [updateGuildEntries, passRenames]
  | cons p rest ih =>
    rw [updateGuildEntries_cons, ih]
    obtain ⟨g2, h2, -, -, hr⟩ := updateVoiceChannel_spec g p.1 (normalizedData p.2)
    simp only [passRenames, h2, hr, List.append_assoc]

theorem pass_frame (g : Guild) (es : List (Str × RoleEntry)) {c2 : Str}
    (h : c2 ∉ es.map entryChannel) :
    (updateGuildEntries g es).2.channel? c2 = g.channel? c2 := by
  induction es generalizing g with
  | nil => rfl
  | cons p rest ih =>
    rw [updateGuildEntries_cons]
    simp only [List.map_cons, List.mem_cons, not_or] at h
    rw [ih _ h.2]
    exact step_frame g p.1 _ (fun e => h.1 e.symm)

theorem pass_accepting (g : Guild) (es : List (Str × RoleEntry)) (h : Accepting g) :
    Accepting (updateGuildEntries g es).2 := by
  induction es generalizing g with
  | nil => exact h
  | cons p rest ih =>
    rw [updateGuildEntries_cons]
    exact ih _ (step_accepting g p.1 _ h)

theorem Settled.transfer {a b : Guild} {p : Str × RoleEntry} (hs : Stable a b)
    (hc : b.channel? (entryChannel p) = a.channel? (entryChannel p)) (h : Settled a p) :
    Settled b p := by
  intro ch hlook hty
  rw [hs.labelOf]
  rw [hc] at hlook
  exact h ch hlook hty

/-- After the pass over entries with distinct channels, on a guild that
accepts renames, every entry is settled. -/
theorem pass_settles (g : Guild) (es : List (Str × RoleEntry)) (h : Accepting g)
    (hd : (es.map entryChannel).Nodup) :
    ∀ p ∈ es, Settled (updateGuildEntries g es).2 p := by
  induction es generalizing g with
  | nil => intro p hp; cases hp
  | cons x rest ih =>
    rw [updateGuildEntries_cons]
    simp only [List.map_cons, List.nodup_cons] at hd
    intro p hp
    rcases List.mem_cons.mp hp with rfl | hp
    · exact Settled.transfer (pass_stable _ rest) (pass_frame _ rest hd.1)
        (step_settles g p h)
    · exact ih _ (step_accepting g x.1 _ h) hd.2 p hp

/-- A step on a settled entry requests nothing and changes no channel. -/
theorem Settled.step_quiet {g : Guild} {p : Str × RoleEntry} (h : Settled g p) :
    stepRenames g p.1 (normalizedData p.2) = [] ∧
      stepChannels g p.1 (normalizedData p.2) = g.channels := by
  unfold stepRenames stepChannels
  cases hc : g.channel? (normalizedData p.2).channelId with
  | none => exact ⟨rfl, rfl⟩
  | some channel =>
    by_cases hty : channel.type = ChannelType.GuildVoice
    · have := h channel hc hty
      simp [this]
    · simp [hty]

/-- A pass over settled entries requests no rename and changes no channel. -/
theorem pass_quiet (g : Guild) (es : List (Str × RoleEntry))
    (h : ∀ p ∈ es, Settled g p) :
    passRenames g es = [] ∧ (updateGuildEntries g es).2.channels = g.channels := by
  induction es generalizing g with
  | nil => exact ⟨rfl, rfl⟩
  | cons x rest ih =>
    rw [updateGuildEntries_cons]
    obtain ⟨g2, h2, hs, hch, -⟩ := updateVoiceChannel_spec g x.1 (normalizedData x.2)
    have hq := (h x (List.mem_cons_self _ _)).step_quiet
    have hch2 : g2.channels = g.channels := hch.trans hq.2
    have hrest : ∀ p ∈ rest, Settled g2 p := fun p hp =>
      Settled.transfer hs (by unfold Guild.channel?; rw [hch2])
        (h p (List.mem_cons_of_mem _ hp))
    have := ih g2 hrest
    simp only [passRenames, h2, hq.1, List.nil_append]
    exact ⟨this.1, this.2.trans hch2⟩

theorem stepRenames_fst {g : Guild} {roleId : Str} {roleData : RoleData} {r : Str × Str}
    (h : r ∈ stepRenames g roleId roleData) : r.1 = roleData.channelId := by
  unfold stepRenames at h
  cases hc : g.channel? roleData.channelId with
  | none => simp [hc] at h
  | some channel =>
    simp only [hc] at h
    split at h
    · simp only [List.mem_singleton] at h
      rw [h]
      exact Guild.channel?_id hc
    · cases h

theorem passRenames_fst {g : Guild} {es : List (Str × RoleEntry)} {r : Str × Str}
    (h : r ∈ passRenames g es) : r.1 ∈ es.map entryChannel := by
  induction es generalizing g with
  | nil => cases h
  | cons x rest ih =>
    simp only [passRenames, List.mem_append] at h
    rcases h with h | h
    · exact List.mem_cons.mpr (Or.inl (stepRenames_fst h))
    · exact List.mem_cons_of_mem _ (ih h)

/-- In a pass over entries with distinct channels, an entry whose voice channel
does not carry its label gets exactly one rename request, to that label. -/
theorem pass_once (g : Guild) (es : List (Str × RoleEntry))
    (hd : (es.map entryChannel).Nodup) (p : Str × RoleEntry) (hp : p ∈ es) (ch : Channel)
    (hc : g.channel? (entryChannel p) = some ch) (hty : ch.type = ChannelType.GuildVoice)
    (hn : ch.name ≠ labelOf g p.1 (normalizedData p.2).nameTemplate) :
    (passRenames g es).filter (fun r => decide (r.1 = entryChannel p)) =
      [(entryChannel p, labelOf g p.1 (normalizedData p.2).nameTemplate)] := by
  induction es generalizing g with
  | nil => cases hp
  | cons x rest ih =>
    simp only [List.map_cons, List.nodup_cons] at hd
    simp only [passRenames, List.filter_append]
    by_cases hx : entryChannel x = entryChannel p
    · have hpx : p = x := by
        rcases List.mem_cons.mp hp with h | h
        · exact h
        · exact absurd (hx ▸ List.mem_map_of_mem entryChannel h) hd.1
      subst hpx
      have h1 : stepRenames g p.1 (normalizedData p.2) =
          [(entryChannel p, labelOf g p.1 (normalizedData p.2).nameTemplate)] := by
        unfold stepRenames
        have hc2 : g.channel? (normalizedData p.2).channelId = some ch := hc
        simp only [hc2, hty, hn, ne_eq, not_false_eq_true, and_self, if_true,
          Guild.channel?_id hc2, entryChannel]
      have h2 : (passRenames (updateVoiceChannel g p.1 (normalizedData p.2)).2 rest).filter
          (fun r => decide (r.1 = entryChannel p)) = [] := by
        rw [List.filter_eq_nil_iff]
        intro r hr
        have := passRenames_fst hr
        simp only [decide_eq_true_eq]
        intro e
        exact hd.1 (e ▸ this)
      rw [h1, h2]
      simp
    · have hprest : p ∈ rest := by
        rcases List.mem_cons.mp hp with h | h
        · exact absurd (h ▸ rfl) hx
        · exact h
      have h1 : (stepRenames g x.1 (normalizedData x.2)).filter
          (fun r => decide (r.1 = entryChannel p)) = [] := by
        rw [List.filter_eq_nil_iff]
        intro r hr
        simp only [decide_eq_true_eq]
        intro e
        exact hx ((stepRenames_fst hr).symm.trans e)
      have hs := step_stable g x.1 (normalizedData x.2)
      have hf := @step_frame g x.1 (normalizedData x.2) (entryChannel p) hx
      rw [h1, List.nil_append, ← hs.labelOf]
      exact ih _ hd.2 hprest (hf.trans hc) (by rw [hs.labelOf]; exact hn)

theorem guildPass_none {config : Config} {g : Guild} (h : config.guildConfig? g.id = none) :
    guildPass config g = g := by
  simp [guildPass, h]

theorem guildPass_some {config : Config} {g : Guild} {gc : List (Str × RoleEntry)}
    (h : config.guildConfig? g.id = some gc) :
    guildPass config g = (updateGuildEntries g gc).2 := by
  simp [guildPass, h]

theorem updateGuilds_spec (config : Config) (gs : List Guild) :
    updateGuilds config gs = (.ok (), gs.map (guildPass config)) := by
  induction gs with
  | nil => rfl
  | cons g gs ih =>
    unfold updateGuilds
    rw [List.map_cons]
    cases hc : config.guildConfig? g.id with
    | none => simp only [ih, guildPass_none hc]
    | some gc =>
      have hok := updateGuildEntries_ok g gc
      have hpair : updateGuildEntries g gc = (.ok (), (updateGuildEntries g gc).2) :=
        Prod.ext hok rfl
      rw [guildPass_some hc]
      simp only
      rw [hpair]
      simp only [ih]

theorem updateAllChannels_spec (client : Client) (config : Config) :
    updateAllChannels client config =
      (.ok (), { guilds := client.guilds.map (guildPass config) }) := by
  simp [updateAllChannels, updateGuilds_spec]

theorem guildPass_id (config : Config) (g : Guild) : (guildPass config g).id = g.id := by
  unfold guildPass
  cases config.guildConfig? g.id with
  | none => rfl
  | some gc => exact (pass_stable g gc).id

/-- On a guild that accepts renames and whose entries have distinct channels,
a second pass requests nothing more. -/
theorem guildPass_twice (config : Config) (g : Guild) (h : Accepting g)
    (hd : (((config.guildConfig? g.id).getD []).map entryChannel).Nodup) :
    renamesOf (guildPass config (guildPass config g)).calls =
      renamesOf (guildPass config g).calls := by
  have hid := guildPass_id config g
  cases hc : config.guildConfig? g.id with
  | none =>
    have h1 : guildPass config g = g := guildPass_none hc
    rw [h1, h1]
  | some gc =>
    have h1 : guildPass config g = (updateGuildEntries g gc).2 := guildPass_some hc
    rw [hc] at hd
    have h2 : guildPass config (guildPass config g) =
        (updateGuildEntries (guildPass config g) gc).2 :=
      guildPass_some (by rw [hid]; exact hc)
    rw [h2, pass_renames]
    have hq := pass_quiet (guildPass config g) gc (by
      rw [h1]
      exact pass_settles g gc h hd)
    rw [hq.1, List.append_nil]

/-- C2 as amended: on a client whose channels accept renames and whose bindings
target distinct channels within each guild, two passes in succession never throw,
the second pass sends no rename at all, and the first pass sends exactly one
rename, to the rendered label, for every binding whose voice channel did not
carry that label. -/
theorem updateAllChannels_twice (client : Client) (config : Config)
    (haccept : ∀ g ∈ client.guilds, ∀ ch ∈ g.channels, ch.setNameRejected = false)
    (hdistinct : ∀ g ∈ client.guilds,
      (((config.guildConfig? g.id).getD []).map
        (fun p => (normalizedData p.2).channelId)).Nodup) :
    (updateAllChannels client config).1 = .ok () ∧
    (updateAllChannels (updateAllChannels client config).2 config).1 = .ok () ∧
    (updateAllChannels (updateAllChannels client config).2 config).2.renames =
      (updateAllChannels client config).2.renames ∧
    ∀ (i : Nat) (g : Guild) (guildConfig : List (Str × RoleEntry)) (roleId : Str)
      (entry : RoleEntry) (ch : Channel) (label : Str),
      client.guilds[i]? = some g → config.guildConfig? g.id = some guildConfig →
      (roleId, entry) ∈ guildConfig →
      g.channel? (normalizedData entry).channelId = some ch →
      ch.type = ChannelType.GuildVoice →
      (generateChannelName g roleId (normalizedData entry).nameTemplate).1 = .ok label →
      ch.name ≠ label →
      ∃ g1, (updateAllChannels client config).2.guilds[i]? = some g1 ∧
        (renamesOf g1.calls).filter
            (fun r => decide (r.1 = (normalizedData entry).channelId)) =
          (renamesOf g.calls).filter
            (fun r => decide (r.1 = (normalizedData entry).channelId)) ++
          [((normalizedData entry).channelId, label)] := by
  refine ⟨by rw [updateAllChannels_spec], by rw [updateAllChannels_spec], ?_, ?_⟩
  · simp only [updateAllChannels_spec, Client.renames, List.map_map]
    apply List.map_congr_left
    intro g hg
    exact guildPass_twice config g (haccept g hg) (hdistinct g hg)
  · intro i g gc roleId entry ch label hi hc hmem hch hty hlab hne
    refine ⟨guildPass config g, ?_, ?_⟩
    · simp [updateAllChannels_spec, List.getElem?_map, hi]
    · obtain ⟨g1, h1, -, -, -⟩ :=
        generateChannelName_spec g roleId (normalizedData entry).nameTemplate
      rw [h1] at hlab
      have hlab2 : labelOf g roleId (normalizedData entry).nameTemplate = label := by
        injection hlab
      have hd := hdistinct g (List.getElem?_mem hi)
      rw [hc] at hd
      rw [guildPass_some hc, pass_renames, List.filter_append]
      have := pass_once g gc hd (roleId, entry) hmem ch hch hty (by rw [hlab2]; exact hne)
      simp only [entryChannel] at this
      rw [this, hlab2]

/-- C1 at `sevenGuild`: the channel is voice and its empty name differs from
the label, so one rename to the label is sent; on the state this leaves, the
same step sends nothing. -/
theorem updateVoiceChannel_renames_iff_differs_witness :
    (sevenGuild.channel? sevenData.channelId =
        some { id := "c".toList, type := ChannelType.GuildVoice, name := [],
               setNameRejected := false } ∧
      ∃ newName, (generateChannelName sevenGuild "r".toList sevenData.nameTemplate).1 =
          .ok newName ∧
        (updateVoiceChannel sevenGuild "r".toList sevenData).1 = .ok () ∧
        renamesOf (updateVoiceChannel sevenGuild "r".toList sevenData).2.calls =
          renamesOf sevenGuild.calls ++
            (if ([] : Str) ≠ newName then [(sevenData.channelId, newName)] else [])) ∧
    renamesOf (updateVoiceChannel sevenGuild "r".toList sevenData).2.calls =
      [("c".toList, "7 members".toList)] ∧
    renamesOf (updateVoiceChannel (updateVoiceChannel sevenGuild "r".toList sevenData).2
      "r".toList sevenData).2.calls = [("c".toList, "7 members".toList)] :=
  ⟨⟨by decide, updateVoiceChannel_renames_iff_differs sevenGuild "r".toList sevenData
      { id := "c".toList, type := ChannelType.GuildVoice, name := [], setNameRejected := false }
      (by decide) (by decide)⟩, by decide, by decide⟩

/-- The amended C2 at the scenario of the specification: seven holders, template
`{count} members`, channel name unset.  The first pass renames to
`7 members` once, the second pass sends nothing, and the pass after an eighth
holder joined renames to `8 members` once. -/
theorem updateAllChannels_twice_witness :
    (updateAllChannels sevenClient sevenConfig).2.renames =
      [[("c".toList, "7 members".toList)]] ∧
    (updateAllChannels (updateAllChannels sevenClient sevenConfig).2 sevenConfig).2.renames =
      [[("c".toList, "7 members".toList)]] ∧
    (updateAllChannels eightClient sevenConfig).2.renames =
      [[("c".toList, "7 members".toList), ("c".toList, "8 members".toList)]] :=
  ⟨by decide,
    (updateAllChannels_twice sevenClient sevenConfig (by decide) (by decide)).2.2.1.trans
      (by decide),
    by decide⟩

theorem digits_aux (P : Char → Prop) (hP : ∀ m, m < 10 → P (Nat.digitChar m)) :
    ∀ fuel n ds, (∀ c ∈ ds, P c) → ∀ c ∈ Nat.toDigitsCore 10 fuel n ds, P c := by
  intro fuel
  induction fuel with
  | zero => intro n ds h; simpa [Nat.toDigitsCore] using h
  | succ f ih =>
    intro n ds h
    simp only [Nat.toDigitsCore]
    have hd : P (Nat.digitChar (n % 10)) := hP _ (Nat.mod_lt _ (by decide))
    have h2 : ∀ c ∈ Nat.digitChar (n % 10) :: ds, P c := by
      intro c hc
      rcases List.mem_cons.mp hc with rfl | hc
      · exact hd
      · exact h c hc
    split
    · exact h2
    · exact ih _ _ h2

/-- The digits of a count hold no dollar sign and no brace. -/
theorem numberToString_plain (n : Nat) :
    ∀ c ∈ numberToString n, c ≠ '$' ∧ c ≠ '{' ∧ c ≠ '}' := by
  have : numberToString n = Nat.toDigitsCore 10 (n + 1) n [] := rfl
  rw [this]
  exact digits_aux _ (by decide) _ _ _ (by simp)

/-- A replacement string without a dollar sign expands to itself. -/
theorem getSubstitution_plain (matched before after : Str) :
    ∀ v : Str, '$' ∉ v → getSubstitution matched before after v = v := by
  intro v
  induction v with
  | nil => intro _; rfl
  | cons c r ih =>
    intro h
    simp only [List.mem_cons, not_or] at h
    cases r with
    | nil => rfl
    | cons d r2 =>
      have hc : ¬ c = '$' := fun e => h.1 e.symm
      have := ih (by simpa using h.2)
      simp only [getSubstitution, hc, if_false, this]

theorem replaceGo_succ (pat repl : Str) (k : Nat) (before : Str) (c : Char) (rest : Str) :
    replaceGo pat repl (k + 1) before (c :: rest) =
      replaceGo pat repl k (before ++ [c]) rest := rfl

theorem replaceGo_zero (pat repl before : Str) (c : Char) (rest : Str) :
    replaceGo pat repl 0 before (c :: rest) =
      if pat.isPrefixOf (c :: rest) then
        getSubstitution pat before ((c :: rest).drop pat.length) repl
          ++ replaceGo pat repl (pat.length - 1) (before ++ [c]) rest
      else c :: replaceGo pat repl 0 (before ++ [c]) rest := rfl

/-- Consuming the rest of a match. -/
theorem replaceGo_skip (pat repl : Str) (u : Str) :
    ∀ before rest, replaceGo pat repl u.length before (u ++ rest) =
      replaceGo pat repl 0 (before ++ u) rest := by
  induction u with
  | nil => intro before rest; simp
  | cons c u ih =>
    intro before rest
    rw [List.length_cons, List.cons_append, replaceGo_succ, ih, List.append_assoc]
    rfl

/-- Copying characters at which no match can start. -/
theorem replaceGo_copy (pat repl : Str) (u : Str)
    (h : ∀ c ∈ u, ∀ rest, pat.isPrefixOf (c :: rest) = false) :
    ∀ before rest, replaceGo pat repl 0 before (u ++ rest) =
      u ++ replaceGo pat repl 0 (before ++ u) rest := by
  induction u with
  | nil => intro before rest; simp
  | cons c u ih =>
    intro before rest
    have hc := h c (List.mem_cons_self _ _) (u ++ rest)
    rw [List.cons_append, replaceGo_zero, hc, if_neg (by simp),
      ih (fun x hx => h x (List.mem_cons_of_mem _ hx)), List.append_assoc]
    rfl

/-- The scan at a match. -/
theorem replaceGo_hit (p : Char) (ps repl before rest : Str) :
    replaceGo (p :: ps) repl 0 before ((p :: ps) ++ rest) =
      getSubstitution (p :: ps) before rest repl ++
        replaceGo (p :: ps) repl 0 (before ++ (p :: ps)) rest := by
  have hpre : (p :: ps).isPrefixOf (p :: (ps ++ rest)) = true := by
    rw [List.isPrefixOf_iff_prefix]
    exact List.prefix_append (p :: ps) rest
  have hdrop : List.drop (p :: ps).length (p :: (ps ++ rest)) = rest := by
    simp
  rw [List.cons_append, replaceGo_zero, hpre, if_pos rfl, hdrop]
  have hlen : (p :: ps).length - 1 = ps.length := by simp
  rw [hlen, replaceGo_skip, List.append_assoc]
  rfl

/-- The scan where no match starts. -/
theorem replaceGo_miss (pat repl before : Str) (c : Char) (rest : Str)
    (h : ¬ pat <+: c :: rest) :
    replaceGo pat repl 0 before (c :: rest) =
      c :: replaceGo pat repl 0 (before ++ [c]) rest := by
  have : pat.isPrefixOf (c :: rest) = false := by
    rw [← Bool.not_eq_true, List.isPrefixOf_iff_prefix]
    exact h
  rw [replaceGo_zero, this, if_neg (by simp)]

/-- With a replacement free of dollar signs, `replace` is textual. -/
theorem replaceGo_substituted (p : Char) (ps v : Str) (hv : '$' ∉ v) :
    ∀ (n : Nat) (s before : Str), s.length ≤ n →
      Substituted (p :: ps) v s (replaceGo (p :: ps) v 0 before s) := by
  intro n
  induction n with
  | zero =>
    intro s before hs
    have : s = [] := List.length_eq_zero.mp (Nat.le_zero.mp hs)
    subst this
    exact Substituted.done
  | succ n ih =>
    intro s before hs
    cases s with
    | nil => exact Substituted.done
    | cons c r =>
      by_cases h : (p :: ps) <+: c :: r
      · obtain ⟨rest, hrest⟩ := h
        rw [← hrest, replaceGo_hit, getSubstitution_plain _ _ _ v hv]
        refine Substituted.hit rest _ (ih rest _ ?_)
        have hlen : (c :: r).length = (p :: ps).length + rest.length := by
          rw [← hrest, List.length_append]
        simp only [List.length_cons] at hlen hs
        omega
      · rw [replaceGo_miss _ _ _ _ _ h]
        refine Substituted.miss c r _ h (ih r _ ?_)
        simp only [List.length_cons] at hs
        omega

theorem replaceAll_substituted (p : Char) (ps v s : Str) (hv : '$' ∉ v) :
    Substituted (p :: ps) v s (replaceAll (p :: ps) v s) :=
  replaceGo_substituted p ps v hv s.length s [] (Nat.le_refl _)

/-- Two names closed by the same character that occurs in neither: when one
closed name starts the other followed by anything, the names are equal. -/
theorem closed_name_eq (x : Char) (post : Str) :
    ∀ n w : Str, x ∉ n → x ∉ w → n ++ [x] <+: w ++ x :: post → n = w := by
  intro n
  induction n with
  | nil =>
    intro w _ hw h
    cases w with
    | nil => rfl
    | cons b w2 =>
      rw [List.nil_append, List.cons_append, List.cons_prefix_cons] at h
      exact absurd (h.1 ▸ List.mem_cons_self _ _) hw
  | cons a n2 ih =>
    intro w hn hw h
    cases w with
    | nil =>
      rw [List.nil_append, List.cons_append, List.cons_prefix_cons] at h
      exact absurd (h.1 ▸ List.mem_cons_self _ _) hn
    | cons b w2 =>
      rw [List.cons_append, List.cons_append, List.cons_prefix_cons] at h
      rw [h.1, ih w2 (fun m => hn (List.mem_cons_of_mem _ m))
        (fun m => hw (List.mem_cons_of_mem _ m)) h.2]

/-- A placeholder does not match at a brace token of another name. -/
theorem braceToken_not_at_token {n w : Str} (hn : '}' ∉ n) (hw : '}' ∉ w) (hne : n ≠ w)
    (post : Str) : ¬ braceToken n <+: braceToken w ++ post := by
  intro h
  unfold braceToken at h
  rw [List.cons_append, List.cons_append, List.cons_append, List.cons_prefix_cons,
    List.append_assoc] at h
  exact hne (closed_name_eq '}' post n w hn hw h.2)

/-- A placeholder matches only at an opening brace. -/
theorem braceToken_needs_brace (n : Str) {c : Char} (hc : c ≠ '{') (rest : Str) :
    (braceToken n).isPrefixOf (c :: rest) = false := by
  rw [← Bool.not_eq_true, List.isPrefixOf_iff_prefix]
  intro h
  unfold braceToken at h
  rw [List.cons_append, List.cons_prefix_cons] at h
  exact hc h.1.symm

/-- A match of a placeholder that starts before a brace token ends before it. -/
theorem braceToken_no_straddle {n : Str} (hn : '{' ∉ n) (w : Str) (c : Char)
    (pre post : Str) (h : braceToken n <+: (c :: pre) ++ braceToken w ++ post) :
    braceToken n <+: c :: pre := by
  rw [List.append_assoc] at h
  rcases List.prefix_or_prefix_of_prefix h (List.prefix_append (c :: pre) _) with h3 | h3
  · exact h3
  · obtain ⟨r, hr⟩ := h3
    rw [← hr, List.prefix_append_right_inj] at h
    cases r with
    | nil =>
      rw [List.append_nil] at hr
      rw [hr]
    | cons d r2 =>
      exfalso
      unfold braceToken at h hr
      rw [List.cons_append, List.cons_append, List.cons_prefix_cons] at h
      rw [List.cons_append, List.cons_append] at hr
      injection hr with _ htail
      have hmem : '{' ∈ n ++ ['}'] := by
        rw [← htail, h.1]
        simp
      rcases List.mem_append.mp hmem with h1 | h1
      · exact hn h1
      · simp at h1

/-- One `replace` call carries a brace token of another name over to its
result, and adds nothing before it when nothing precedes it. -/
theorem replaceGo_keeps {n w : Str} (hn1 : '{' ∉ n) (hn2 : '}' ∉ n) (hw1 : '{' ∉ w)
    (hw2 : '}' ∉ w) (hne : n ≠ w) (repl : Str) :
    ∀ (k : Nat) (pre before post : Str), pre.length ≤ k →
      ∃ a, replaceGo (braceToken n) repl 0 before (pre ++ braceToken w ++ post) =
          a ++ braceToken w ++
            replaceGo (braceToken n) repl 0 (before ++ pre ++ braceToken w) post ∧
        (pre = [] → a = []) := by
  have hbase : ∀ before post : Str,
      replaceGo (braceToken n) repl 0 before (braceToken w ++ post) =
        braceToken w ++ replaceGo (braceToken n) repl 0 (before ++ braceToken w) post := by
    intro before post
    have hmiss := braceToken_not_at_token hn2 hw2 hne post
    have hcopy := replaceGo_copy (braceToken n) repl (w ++ ['}'])
      (fun c hc rest => braceToken_needs_brace n (by
        rcases List.mem_append.mp hc with h | h
        · exact fun e => hw1 (e ▸ h)
        · simp only [List.mem_singleton] at h
          rw [h]
          decide) rest) (before ++ ['{']) post
    have e1 : braceToken w ++ post = '{' :: ((w ++ ['}']) ++ post) := rfl
    rw [e1] at hmiss ⊢
    rw [replaceGo_miss _ _ _ _ _ hmiss, hcopy]
    have e2 : before ++ braceToken w = before ++ ['{'] ++ (w ++ ['}']) := by
      simp [braceToken]
    rw [e2]
    rfl
  intro k
  induction k with
  | zero =>
    intro pre before post hp
    have : pre = [] := List.length_eq_zero.mp (Nat.le_zero.mp hp)
    subst this
    exact ⟨[], by simpa using hbase before post, fun _ => rfl⟩
  | succ k ih =>
    intro pre before post hp
    cases pre with
    | nil => exact ⟨[], by simpa using hbase before post, fun _ => rfl⟩
    | cons c pre2 =>
      by_cases h : braceToken n <+: (c :: pre2) ++ braceToken w ++ post
      · obtain ⟨pre3, h3⟩ := braceToken_no_straddle hn1 w c pre2 post h
        have hlen : pre3.length ≤ k := by
          have : (c :: pre2).length = (braceToken n).length + pre3.length := by
            rw [← h3, List.length_append]
          simp only [List.length_cons, braceToken, List.length_append] at this hp
          omega
        obtain ⟨a, ha, -⟩ := ih pre3 (before ++ braceToken n) post hlen
        refine ⟨getSubstitution (braceToken n) before (pre3 ++ braceToken w ++ post) repl ++ a,
          ?_, fun e => by cases e⟩
        have e1 : (c :: pre2) ++ braceToken w ++ post =
            braceToken n ++ (pre3 ++ braceToken w ++ post) := by
          rw [← h3]
          simp
        have e2 : braceToken n = '{' :: (n ++ ['}']) := rfl
        rw [e1]
        conv_lhs => rw [e2, replaceGo_hit, ← e2]
        rw [ha, ← h3]
        simp
      · obtain ⟨a, ha, -⟩ := ih pre2 (before ++ [c]) post (by
          simp only [List.length_cons] at hp
          omega)
        refine ⟨c :: a, ?_, fun e => by cases e⟩
        have e1 : (c :: pre2) ++ braceToken w ++ post = c :: (pre2 ++ braceToken w ++ post) :=
          rfl
        rw [e1] at h ⊢
        rw [replaceGo_miss _ _ _ _ _ h, ha]
        simp

theorem replaceAll_keeps {n w : Str} (hn1 : '{' ∉ n) (hn2 : '}' ∉ n) (hw1 : '{' ∉ w)
    (hw2 : '}' ∉ w) (hne : n ≠ w) (repl pre post : Str) :
    ∃ a b, replaceAll (braceToken n) repl (pre ++ braceToken w ++ post) =
        a ++ braceToken w ++ b ∧ (pre = [] → a = []) ∧ (post = [] → b = []) := by
  obtain ⟨a, ha, h0⟩ := replaceGo_keeps hn1 hn2 hw1 hw2 hne repl pre.length pre [] post
    (Nat.le_refl _)
  refine ⟨a, _, ha, h0, ?_⟩
  intro e
  subst e
  rfl

/-- The substitution chain carries every brace token that is not a placeholder
over to the label; nothing is put before a token that starts the template, nor
after a token that ends it. -/
theorem render_keeps {w : Str} (hw1 : '{' ∉ w) (hw2 : '}' ∉ w) (hw : w ∉ placeholderNames)
    (pre post : Str) (memberCount : Nat) (roleName roleId guildName : Str) :
    ∃ a b, render (pre ++ braceToken w ++ post) memberCount roleName roleId guildName =
        a ++ braceToken w ++ b ∧ (pre = [] → a = []) ∧ (post = [] → b = []) := by
  simp only [placeholderNames, List.mem_cons, List.mem_singleton, not_or, List.not_mem_nil,
    or_false] at hw
  obtain ⟨h1, h2, h3, h4⟩ := hw
  obtain ⟨a1, b1, e1, p1, q1⟩ := @replaceAll_keeps "count".toList w (by decide) (by decide)
    hw1 hw2 (Ne.symm h1) (numberToString memberCount) pre post
  obtain ⟨a2, b2, e2, p2, q2⟩ := @replaceAll_keeps "role".toList w (by decide) (by decide)
    hw1 hw2 (Ne.symm h2) roleName a1 b1
  obtain ⟨a3, b3, e3, p3, q3⟩ := @replaceAll_keeps "roleid".toList w (by decide) (by decide)
    hw1 hw2 (Ne.symm h3) roleId a2 b2
  obtain ⟨a4, b4, e4, p4, q4⟩ := @replaceAll_keeps "guild".toList w (by decide) (by decide)
    hw1 hw2 (Ne.symm h4) guildName a3 b3
  refine ⟨a4, b4, ?_, fun e => p4 (p3 (p2 (p1 e))), fun e => q4 (q3 (q2 (q1 e)))⟩
  unfold render
  have c1 : "{count}".toList = braceToken "count".toList := rfl
  have c2 : "{role}".toList = braceToken "role".toList := rfl
  have c3 : "{roleid}".toList = braceToken "roleid".toList := rfl
  have c4 : "{guild}".toList = braceToken "guild".toList := rfl
  rw [c1, c2, c3, c4, e1, e2, e3, e4]

/-- Textual replacement has one result. -/
theorem Substituted.unique {p : Char} {ps value : Str} :
    ∀ {s out1 out2 : Str}, Substituted (p :: ps) value s out1 →
      Substituted (p :: ps) value s out2 → out1 = out2 := by
  intro s out1 out2 h1
  induction h1 generalizing out2 with
  | done =>
    intro h2
    cases h2 with
    | done => rfl
  | hit rest out _ ih =>
    intro h2
    generalize hs : (p :: ps) ++ rest = s at h2
    cases h2 with
    | done => cases hs
    | hit rest2 o2 h3 =>
      have : rest = rest2 := List.append_cancel_left hs
      subst this
      rw [ih h3]
    | miss c r o2 hnot h3 =>
      exact absurd ⟨rest, hs⟩ hnot
  | miss c rest out hnot _ ih =>
    intro h2
    generalize hs : c :: rest = s at h2
    cases h2 with
    | done => cases hs
    | hit rest2 o2 h3 =>
      exact absurd ⟨rest2, hs.symm⟩ hnot
    | miss c2 r2 o2 hnot2 h3 =>
      injection hs with hc hr
      subst hc
      subst hr
      rw [ih h3]

/-- C3: the substitution chain of `generateChannelName` carries every brace
token whose name is not `count`, `role`, `roleid` or `guild` over to the label
verbatim, for every template around it and all values (nothing is put before a
token that starts the template, nor after one that ends it);
`generateChannelName` always returns a label, never an exception; and the
template `{count} - {role} ({unknown})` with count 5 and role name `VIP`
renders `5 - VIP ({unknown})`. -/
theorem render_keeps_unknown_tokens :
    (∀ (w pre post : Str) (memberCount : Nat) (roleName roleId guildName : Str),
      '{' ∉ w → '}' ∉ w → w ∉ placeholderNames →
      ∃ a b, render (pre ++ braceToken w ++ post) memberCount roleName roleId guildName =
          a ++ braceToken w ++ b ∧ (pre = [] → a = []) ∧ (post = [] → b = [])) ∧
    (∀ (g : Guild) (roleId : Str) (nameTemplate : Option Str),
      ∃ label, (generateChannelName g roleId nameTemplate).1 = .ok label) ∧
    (∀ roleId guildName : Str,
      render "{count} - {role} ({unknown})".toList 5 "VIP".toList roleId guildName =
        "5 - VIP ({unknown})".toList) := by
  refine ⟨?_, ?_, ?_⟩
  · intro w pre post memberCount roleName roleId guildName hw1 hw2 hw
    exact render_keeps hw1 hw2 hw pre post memberCount roleName roleId guildName
  · intro g roleId t
    obtain ⟨g1, h1, -, -, -⟩ := generateChannelName_spec g roleId t
    exact ⟨_, by rw [h1]⟩
  · intro roleId guildName
    rfl

/-- C3 at the template of the specification, split around `{unknown}`. -/
theorem render_keeps_unknown_tokens_witness :
    '{' ∉ "unknown".toList ∧ '}' ∉ "unknown".toList ∧ "unknown".toList ∉ placeholderNames ∧
    ∃ a b, render ("{count} - {role} (".toList ++ braceToken "unknown".toList ++ ")".toList)
        5 "VIP".toList "42".toList "Home".toList =
          a ++ braceToken "unknown".toList ++ b ∧
        ("{count} - {role} (".toList = [] → a = []) ∧ (")".toList = [] → b = []) :=
  ⟨by decide, by decide, by decide,
    render_keeps_unknown_tokens.1 "unknown".toList "{count} - {role} (".toList ")".toList
      5 "VIP".toList "42".toList "Home".toList (by decide) (by decide) (by decide)⟩

/-- C4, as stated, fails: the placeholders written in another letter case are
not substituted, their lower-case forms are. -/
theorem render_other_case_counterexample :
    render "{COUNT}".toList 5 "VIP".toList "42".toList "Home".toList = "{COUNT}".toList ∧
    render "{count}".toList 5 "VIP".toList "42".toList "Home".toList = "5".toList ∧
    render "{Role}".toList 5 "VIP".toList "42".toList "Home".toList = "{Role}".toList ∧
    render "{role}".toList 5 "VIP".toList "42".toList "Home".toList = "VIP".toList ∧
    render "{RoleId}".toList 5 "VIP".toList "42".toList "Home".toList = "{RoleId}".toList ∧
    render "{roleid}".toList 5 "VIP".toList "42".toList "Home".toList = "42".toList ∧
    render "{GUILD}".toList 5 "VIP".toList "42".toList "Home".toList = "{GUILD}".toList ∧
    render "{guild}".toList 5 "VIP".toList "42".toList "Home".toList = "Home".toList := by
  decide

theorem lower_name_no_brace {w : Str} (h : w.map Char.toLower ∈ placeholderNames) :
    '{' ∉ w ∧ '}' ∉ w := by
  have key : ∀ c : Char, c.toLower = c → (∀ n ∈ placeholderNames, c ∉ n) → c ∉ w := by
    intro c hc hn hmem
    have : c.toLower ∈ w.map Char.toLower := List.mem_map_of_mem _ hmem
    rw [hc] at this
    exact hn _ h this
  exact ⟨key '{' (by decide) (by decide), key '}' (by decide) (by decide)⟩

/-- C4 as amended: matching is case-sensitive.  A brace token whose name is a
placeholder name in another letter case is carried over to the label verbatim,
for every template around it and all values. -/
theorem render_keeps_other_case (w pre post : Str) (memberCount : Nat)
    (roleName roleId guildName : Str)
    (hlower : w.map Char.toLower ∈ placeholderNames) (hw : w ∉ placeholderNames) :
    ∃ a b, render (pre ++ braceToken w ++ post) memberCount roleName roleId guildName =
        a ++ braceToken w ++ b ∧ (pre = [] → a = []) ∧ (post = [] → b = []) :=
  render_keeps (lower_name_no_brace hlower).1 (lower_name_no_brace hlower).2 hw pre post
    memberCount roleName roleId guildName

/-- The amended C4 at the template `{COUNT} - {role}`. -/
theorem render_keeps_other_case_witness :
    "COUNT".toList.map Char.toLower ∈ placeholderNames ∧ "COUNT".toList ∉ placeholderNames ∧
    ∃ a b, render ([] ++ braceToken "COUNT".toList ++ " - {role}".toList)
        5 "VIP".toList "42".toList "Home".toList =
          a ++ braceToken "COUNT".toList ++ b ∧
        (([] : Str) = [] → a = []) ∧ (" - {role}".toList = [] → b = []) :=
  ⟨by decide, by decide,
    render_keeps_other_case "COUNT".toList [] " - {role}".toList 5 "VIP".toList "42".toList
      "Home".toList (by decide) (by decide)⟩

/-- C5, as stated, fails: a role name `$&` is replaced by the matched token,
not by its own text, and a role name `{guild}` ends up as the guild name. -/
theorem render_textual_counterexample :
    render "{role}".toList 5 "$&".toList "42".toList "Home".toList = "{role}".toList ∧
    render "{role}".toList 5 "$&".toList "42".toList "Home".toList ≠ "$&".toList ∧
    render "{role}".toList 5 "{guild}".toList "42".toList "Home".toList = "Home".toList ∧
    render "{role}".toList 5 "{guild}".toList "42".toList "Home".toList ≠ "{guild}".toList := by
  decide

/-- C5 as amended: when the role name, the role id and the guild name hold no
dollar sign, each of the four `replace` steps replaces every occurrence of its
token in the string it receives by exactly the text of its value; the steps
run in sequence, each on the result of the one before, so a token that stands
in a value already substituted is itself substituted by a later step. -/
theorem render_textual (template : Str) (memberCount : Nat) (roleName roleId guildName : Str)
    (h1 : '$' ∉ roleName) (h2 : '$' ∉ roleId) (h3 : '$' ∉ guildName) :
    ∃ s1 s2 s3,
      Substituted "{count}".toList (numberToString memberCount) template s1 ∧
      Substituted "{role}".toList roleName s1 s2 ∧
      Substituted "{roleid}".toList roleId s2 s3 ∧
      Substituted "{guild}".toList guildName s3
        (render template memberCount roleName roleId guildName) := by
  have h0 : '$' ∉ numberToString memberCount :=
    fun h => (numberToString_plain memberCount _ h).1 rfl
  exact ⟨_, _, _, replaceAll_substituted '{' "count\x7d".toList _ template h0,
    replaceAll_substituted '{' "role\x7d".toList _ _ h1,
    replaceAll_substituted '{' "roleid\x7d".toList _ _ h2,
    replaceAll_substituted '{' "guild\x7d".toList _ _ h3⟩

/-- The amended C5 at a role name that holds a placeholder token. -/
theorem render_textual_witness :
    '$' ∉ "{guild}".toList ∧ '$' ∉ "42".toList ∧ '$' ∉ "Home".toList ∧
    ∃ s1 s2 s3,
      Substituted "{count}".toList (numberToString 5) "{count} - {role}".toList s1 ∧
      Substituted "{role}".toList "{guild}".toList s1 s2 ∧
      Substituted "{roleid}".toList "42".toList s2 s3 ∧
      Substituted "{guild}".toList "Home".toList s3
        (render "{count} - {role}".toList 5 "{guild}".toList "42".toList "Home".toList) :=
  ⟨by decide, by decide, by decide,
    render_textual "{count} - {role}".toList 5 "{guild}".toList "42".toList "Home".toList
      (by decide) (by decide) (by decide)⟩

/-- A `replace` call leaves a subject without an opening brace as it is. -/
theorem replaceAll_no_brace (n repl s : Str) (h : '{' ∉ s) :
    replaceAll (braceToken n) repl s = s := by
  have := replaceGo_copy (braceToken n) repl s
    (fun c hc rest => braceToken_needs_brace n (fun e => h (e ▸ hc)) rest) [] []
  simpa [replaceAll, replaceGo] using this

/-- The default template renders to the count, ` - ` and the role name when the
role name holds no dollar sign and no opening brace. -/
theorem render_default (memberCount : Nat) (roleName roleId guildName : Str)
    (h1 : '$' ∉ roleName) (h2 : '{' ∉ roleName) :
    render defaultTemplate memberCount roleName roleId guildName =
      numberToString memberCount ++ " - ".toList ++ roleName := by
  have hd := numberToString_plain memberCount
  have hd1 : '$' ∉ numberToString memberCount := fun h => (hd _ h).1 rfl
  have hd2 : '{' ∉ numberToString memberCount := fun h => (hd _ h).2.1 rfl
  have s1 : replaceAll "{count}".toList (numberToString memberCount) defaultTemplate =
      numberToString memberCount ++ " - {role}".toList := by
    have : replaceAll "{count}".toList (numberToString memberCount) defaultTemplate =
        getSubstitution "{count}".toList [] " - {role}".toList (numberToString memberCount)
          ++ " - {role}".toList := rfl
    rw [this, getSubstitution_plain _ _ _ _ hd1]
  have s2 : replaceAll "{role}".toList roleName
      (numberToString memberCount ++ " - {role}".toList) =
      numberToString memberCount ++ " - ".toList ++ roleName := by
    have hcopy := replaceGo_copy (braceToken "role".toList) roleName (numberToString memberCount)
      (fun c hc rest => braceToken_needs_brace _ (fun e => hd2 (e ▸ hc)) rest) []
      " - {role}".toList
    have htail : ∀ before : Str,
        replaceGo (braceToken "role".toList) roleName 0 before " - {role}".toList =
          " - ".toList ++
            (getSubstitution "{role}".toList (((before ++ [' ']) ++ ['-']) ++ [' ']) []
              roleName ++ []) := by
      intro before
      rfl
    have e : "{role}".toList = braceToken "role".toList := rfl
    rw [replaceAll, e, hcopy, htail, getSubstitution_plain _ _ _ _ h1]
    simp
  have hfree : '{' ∉ numberToString memberCount ++ " - ".toList ++ roleName := by
    intro h
    rcases List.mem_append.mp h with h | h
    · rcases List.mem_append.mp h with h | h
      · exact hd2 h
      · revert h
        decide
    · exact h2 h
  have e3 : "{roleid}".toList = braceToken "roleid".toList := rfl
  have e4 : "{guild}".toList = braceToken "guild".toList := rfl
  unfold render
  rw [s1, s2, e3, replaceAll_no_brace _ _ _ hfree, e4, replaceAll_no_brace _ _ _ hfree]

/-- C6 as amended: a binding without template (absent, or empty) gets the label
that the template `{count} - {role}` gets, the default; for a role name without
dollar sign and opening brace that label is the count, ` - ` and the role
name; `createVoiceChannel` called without a template does
what it does when called with that template, and asks for a channel named by
the label of a binding without template. -/
theorem generateChannelName_default :
    (∀ (g : Guild) (roleId : Str),
      generateChannelName g roleId none = generateChannelName g roleId (some defaultTemplate) ∧
      generateChannelName g roleId (some []) =
        generateChannelName g roleId (some defaultTemplate)) ∧
    (∀ (g : Guild) (roleId : Str),
      createVoiceChannel g roleId none = createVoiceChannel g roleId (some defaultTemplate) ∧
      ∃ label g1, generateChannelName g roleId none = (.ok label, g1) ∧
        (createVoiceChannel g roleId none).2.calls =
          g1.calls ++ [ApiCall.channelsCreate label]) ∧
    (∀ (g : Guild) (roleId : Str) (role : Role), g.role? roleId = some role →
      '$' ∉ role.name → '{' ∉ role.name →
      ∃ memberCount, (countRoleMembers g roleId).1 = .ok memberCount ∧
        (generateChannelName g roleId none).1 =
          .ok (numberToString memberCount ++ " - ".toList ++ role.name)) ∧
    defaultTemplate = "{count} - {role}".toList := by
  refine ⟨fun g roleId => ⟨rfl, rfl⟩, fun g roleId => ⟨rfl, ?_⟩, ?_, rfl⟩
  · obtain ⟨g1, h1, -, -, -⟩ := generateChannelName_spec g roleId none
    refine ⟨_, g1, h1, ?_⟩
    have h1b : generateChannelName g roleId (some defaultTemplate) =
        (.ok (labelOf g roleId none), g1) := h1
    unfold createVoiceChannel
    simp only [Option.getD_none, h1b]
    cases g1.created <;> rfl
  intro g roleId role hr h1 h2
  obtain ⟨g1, hc, -, -, -⟩ := countRoleMembers_spec g roleId
  refine ⟨effCount g roleId, by rw [hc], ?_⟩
  unfold generateChannelName
  simp only [hr, hc, templateOrDefault]
  rw [render_default _ _ _ _ h1 h2]

/-- The amended C6 at `sevenGuild`: without a template the label is `7 - VIP`. -/
theorem generateChannelName_default_witness :
    sevenGuild.role? "r".toList = some { id := "r".toList, name := "VIP".toList } ∧
    (∃ memberCount, (countRoleMembers sevenGuild "r".toList).1 = .ok memberCount ∧
      (generateChannelName sevenGuild "r".toList none).1 =
        .ok (numberToString memberCount ++ " - ".toList ++ "VIP".toList)) ∧
    (generateChannelName sevenGuild "r".toList none).1 = .ok "7 - VIP".toList :=
  ⟨by decide,
    generateChannelName_default.2.2.1 sevenGuild "r".toList
      { id := "r".toList, name := "VIP".toList } (by decide) (by decide) (by decide),
    rfl⟩

theorem normalizedData_idem (e : RoleEntry) :
    normalizedData (RoleEntry.data (normalizedData e)) = normalizedData e := rfl

theorem updateGuildEntries_normalized (g : Guild) (es : List (Str × RoleEntry)) :
    updateGuildEntries g (es.map (fun q => (q.1, RoleEntry.data (normalizedData q.2)))) =
      updateGuildEntries g es := by
  induction es generalizing g with
  | nil => rfl
  | cons p rest ih =>
    rw [List.map_cons, updateGuildEntries_cons, updateGuildEntries_cons, ih]
    rfl

theorem guildConfig?_normalized (config : Config) (guildId : Str) :
    config.normalized.guildConfig? guildId =
      (config.guildConfig? guildId).map
        (fun es => es.map (fun q => (q.1, RoleEntry.data (normalizedData q.2)))) := by
  unfold Config.guildConfig? Config.normalized
  simp only [List.find?_map, Option.map_map]
  rfl

theorem guildPass_normalized (config : Config) (g : Guild) :
    guildPass config.normalized g = guildPass config g := by
  unfold guildPass
  rw [guildConfig?_normalized]
  cases config.guildConfig? g.id with
  | none => rfl
  | some gc => simp only [Option.map_some', updateGuildEntries_normalized]

/-- C7: the pass reads a stored bare string `s` as the object with channel id
`s` and template `{count} - {role}`, and an object as it is: a pass gives the
same outcome and the same state on a configuration and on the configuration in
which every entry is written as that object.  The string `123456` is read as
the object with channel id `123456` and the default template. -/
theorem updateAllChannels_normalizes :
    (∀ s : Str, normalizedData (RoleEntry.legacy s) =
      { channelId := s, nameTemplate := some "{count} - {role}".toList }) ∧
    (∀ roleData : RoleData, normalizedData (RoleEntry.data roleData) = roleData) ∧
    (∀ (client : Client) (config : Config),
      updateAllChannels client config.normalized = updateAllChannels client config) ∧
    (∀ (g : Guild) (roleId s : Str) (rest : List (Str × RoleEntry)),
      updateGuildEntries g ((roleId, RoleEntry.legacy s) :: rest) =
        updateGuildEntries
          (updateVoiceChannel g roleId
            { channelId := s, nameTemplate := some "{count} - {role}".toList }).2 rest) ∧
    normalizedData (RoleEntry.legacy "123456".toList) =
      { channelId := "123456".toList, nameTemplate := some "{count} - {role}".toList } := by
  refine ⟨fun s => rfl, fun d => rfl, ?_, ?_, rfl⟩
  · intro client config
    rw [updateAllChannels_spec, updateAllChannels_spec]
    congr 2
    exact List.map_congr_left (fun g _ => guildPass_normalized config g)
  · intro g roleId s rest
    exact updateGuildEntries_cons g (roleId, RoleEntry.legacy s) rest

theorem effCount_outage {g : Guild} (roleId : Str) (hm : g.members = []) (hf : g.roster = none) :
    effCount g roleId = 0 := by
  unfold effCount effMembers
  cases g.role? roleId with
  | none => rfl
  | some role => simp [hm, hf]

/-- C8, as stated, fails: with an empty cache and a failing roster request the
resolver returns the count 0, and the binding is not skipped: its channel is
renamed from `7 members` to `0 members`. -/
theorem fetch_failure_counterexample :
    (countRoleMembers outageGuild "r".toList).1 = .ok 0 ∧
    (updateVoiceChannel outageGuild "r".toList sevenData).2.calls =
      [ApiCall.membersFetch, ApiCall.setName "c".toList "0 members".toList] ∧
    (updateVoiceChannel outageGuild "r".toList sevenData).2.channels.map Channel.name =
      ["0 members".toList] :=
  ⟨rfl, by decide, by decide⟩

/-- C8 as amended: when the roster request fails while the count of an existing
role is resolved, the resolver catches the error and returns the count 0; the
binding is processed with that count: its label is rendered with 0 and a
rename to it is sent exactly when it differs from the name of the channel. -/
theorem countRoleMembers_fetch_failure (g : Guild) (roleId : Str) (role : Role)
    (hr : g.role? roleId = some role) (hm : g.members = []) (hf : g.roster = none) :
    countRoleMembers g roleId =
      (.ok 0, { g with calls := g.calls ++ [ApiCall.membersFetch] }) ∧
    ∀ (roleData : RoleData) (ch : Channel),
      g.channel? roleData.channelId = some ch → ch.type = ChannelType.GuildVoice →
      (updateVoiceChannel g roleId roleData).1 = .ok () ∧
      renamesOf (updateVoiceChannel g roleId roleData).2.calls =
        renamesOf g.calls ++
          (if ch.name ≠
              render (templateOrDefault roleData.nameTemplate) 0 role.name roleId g.name then
            [(roleData.channelId,
              render (templateOrDefault roleData.nameTemplate) 0 role.name roleId g.name)]
          else []) := by
  constructor
  · unfold countRoleMembers
    simp [hr, hm, membersFetch, hf]
  · intro roleData ch hch hty
    obtain ⟨g2, h2, -, -, hren⟩ := updateVoiceChannel_spec g roleId roleData
    have hl : labelOf g roleId roleData.nameTemplate =
        render (templateOrDefault roleData.nameTemplate) 0 role.name roleId g.name := by
      unfold labelOf
      simp only [hr, effCount_outage roleId hm hf]
    rw [h2]
    refine ⟨rfl, ?_⟩
    simp only [hren, stepRenames, hch, hty, true_and, hl, Guild.channel?_id hch]

/-- The amended C8 at `outageGuild`. -/
theorem countRoleMembers_fetch_failure_witness :
    outageGuild.role? "r".toList = some { id := "r".toList, name := "VIP".toList } ∧
    outageGuild.members = [] ∧ outageGuild.roster = none ∧
    countRoleMembers outageGuild "r".toList =
      (.ok 0, { outageGuild with calls := outageGuild.calls ++ [ApiCall.membersFetch] }) :=
  ⟨by decide, by decide, by decide,
    (countRoleMembers_fetch_failure outageGuild "r".toList
      { id := "r".toList, name := "VIP".toList } (by decide) (by decide) (by decide)).1⟩

theorem updateGuildEntries_append (g : Guild) (pre post : List (Str × RoleEntry)) :
    updateGuildEntries g (pre ++ post) =
      updateGuildEntries (updateGuildEntries g pre).2 post := by
  induction pre generalizing g with
  | nil => rfl
  | cons p rest ih =>
    rw [List.cons_append, updateGuildEntries_cons, updateGuildEntries_cons, ih]

/-- C9, as stated, fails for a failing membership resolution: in a pass over
`sevenGuild` and `outageGuild` the binding whose roster request fails does not
keep its observed label `7 members`; it is renamed to `0 members`. -/
theorem failed_fetch_label_counterexample :
    outageGuild.channels.map Channel.name = ["7 members".toList] ∧
    (updateAllChannels { guilds := [sevenGuild, outageGuild] } bothConfig).2.guilds.map
        (fun g => g.channels.map Channel.name) =
      [["7 members".toList], ["0 members".toList]] := by
  decide

/-- C9 as amended: a pass never throws; a list of bindings is processed entry
by entry, each one from the state its predecessors left, whether or not an
earlier one failed; each binding with a voice channel is sent a rename exactly
when its label differs from the name of the channel; and when that rename
throws, the channels keep their names and the same step on the state so left
sends the rename again.  (A failing roster request is not a failure of the
binding: see C8.) -/
theorem updateAllChannels_isolates_failures :
    (∀ (client : Client) (config : Config), (updateAllChannels client config).1 = .ok ()) ∧
    (∀ (g : Guild) (pre : List (Str × RoleEntry)) (roleId : Str) (entry : RoleEntry)
        (post : List (Str × RoleEntry)),
      (updateGuildEntries g (pre ++ (roleId, entry) :: post)).1 = .ok () ∧
      updateGuildEntries g (pre ++ (roleId, entry) :: post) =
        updateGuildEntries
          (updateVoiceChannel (updateGuildEntries g pre).2 roleId (normalizedData entry)).2
          post) ∧
    (∀ (g : Guild) (roleId : Str) (roleData : RoleData) (ch : Channel),
      g.channel? roleData.channelId = some ch → ch.type = ChannelType.GuildVoice →
      ∃ label, (generateChannelName g roleId roleData.nameTemplate).1 = .ok label ∧
        renamesOf (updateVoiceChannel g roleId roleData).2.calls =
          renamesOf g.calls ++
            (if ch.name ≠ label then [(roleData.channelId, label)] else [])) ∧
    (∀ (g : Guild) (roleId : Str) (roleData : RoleData) (ch : Channel) (label : Str),
      g.channel? roleData.channelId = some ch → ch.type = ChannelType.GuildVoice →
      (generateChannelName g roleId roleData.nameTemplate).1 = .ok label →
      ch.name ≠ label → ch.setNameRejected = true →
      (updateVoiceChannel g roleId roleData).1 = .ok () ∧
      (updateVoiceChannel g roleId roleData).2.channels = g.channels ∧
      renamesOf (updateVoiceChannel g roleId roleData).2.calls =
        renamesOf g.calls ++ [(roleData.channelId, label)] ∧
      renamesOf (updateVoiceChannel (updateVoiceChannel g roleId roleData).2
          roleId roleData).2.calls =
        renamesOf (updateVoiceChannel g roleId roleData).2.calls ++
          [(roleData.channelId, label)]) := by
  refine ⟨fun client config => by rw [updateAllChannels_spec], ?_, ?_, ?_⟩
  · intro g pre roleId entry post
    refine ⟨updateGuildEntries_ok _ _, ?_⟩
    rw [updateGuildEntries_append, updateGuildEntries_cons]
  · intro g roleId roleData ch hch hty
    obtain ⟨g1, h1, -, -, -⟩ := generateChannelName_spec g roleId roleData.nameTemplate
    obtain ⟨g2, h2, -, -, hren⟩ := updateVoiceChannel_spec g roleId roleData
    refine ⟨labelOf g roleId roleData.nameTemplate, by rw [h1], ?_⟩
    rw [h2]
    simp only [hren, stepRenames, hch, hty, true_and, Guild.channel?_id hch]
  · intro g roleId roleData ch label hch hty hlab hne hrej
    obtain ⟨g1, h1, -, -, -⟩ := generateChannelName_spec g roleId roleData.nameTemplate
    obtain ⟨g2, h2, hs, hchan, hren⟩ := updateVoiceChannel_spec g roleId roleData
    have hid := Guild.channel?_id hch
    rw [h1] at hlab
    have hlab2 : labelOf g roleId roleData.nameTemplate = label := by
      injection hlab
    subst hlab2
    have hsame : g2.channels = g.channels := by
      rw [hchan]
      unfold stepChannels
      simp [hch, hrej]
    rw [h2]
    refine ⟨rfl, hsame, ?_, ?_⟩
    · simp only [hren, stepRenames, hch, hty, true_and, hne, ne_eq, not_false_eq_true,
        if_true, hid]
    · obtain ⟨g3, h3, -, -, hren3⟩ := updateVoiceChannel_spec g2 roleId roleData
      have hch2 : g2.channel? roleData.channelId = some ch := by
        unfold Guild.channel?
        rw [hsame]
        exact hch
      rw [h3]
      simp only [hren3, stepRenames, hch2, hty, true_and, hs.labelOf, hne, ne_eq,
        not_false_eq_true, if_true, hid]

/-- The amended C9 at three bindings of which the second fails: the first and
the third channel take their labels, the second keeps its name and is sent
the same rename by the next step on it. -/
theorem updateAllChannels_isolates_failures_witness :
    (updateGuildEntries trioGuild trioEntries).2.channels.map Channel.name =
      ["1 - Red".toList, [], "3 - Blue".toList] ∧
    renamesOf (updateGuildEntries trioGuild trioEntries).2.calls =
      [("c1".toList, "1 - Red".toList), ("c2".toList, "2 - Green".toList),
       ("c3".toList, "3 - Blue".toList)] ∧
    (updateVoiceChannel trioGuild "r2".toList
      { channelId := "c2".toList, nameTemplate := none }).1 = .ok () ∧
    (updateVoiceChannel trioGuild "r2".toList
      { channelId := "c2".toList, nameTemplate := none }).2.channels = trioGuild.channels ∧
    renamesOf (updateVoiceChannel trioGuild "r2".toList
        { channelId := "c2".toList, nameTemplate := none }).2.calls =
      renamesOf trioGuild.calls ++ [("c2".toList, "2 - Green".toList)] ∧
    renamesOf (updateVoiceChannel (updateVoiceChannel trioGuild "r2".toList
        { channelId := "c2".toList, nameTemplate := none }).2 "r2".toList
        { channelId := "c2".toList, nameTemplate := none }).2.calls =
      renamesOf (updateVoiceChannel trioGuild "r2".toList
        { channelId := "c2".toList, nameTemplate := none }).2.calls ++
        [("c2".toList, "2 - Green".toList)] :=
  ⟨by decide, by decide,
    updateAllChannels_isolates_failures.2.2.2 trioGuild "r2".toList
      { channelId := "c2".toList, nameTemplate := none }
      { id := "c2".toList, type := ChannelType.GuildVoice, name := [], setNameRejected := true }
      "2 - Green".toList (by decide) (by decide) rfl (by decide) rfl⟩

theorem Bot.handle_schedules (b : Bot) (e : MemberEvent) (h : e.schedules = true) :
    b.handle e = b.setTimeout := by
  cases e with
  | guildMemberAdd => rfl
  | guildMemberRemove => rfl
  | guildMemberUpdate o n =>
    simp only [MemberEvent.schedules, decide_eq_true_eq] at h
    simp only [Bot.handle, h, ne_eq, not_false_eq_true, if_true]

theorem Bot.foldl_fire (l : List Nat) :
    ∀ b : Bot, (l.foldl Bot.fire b).passes = b.passes ++ l := by
  induction l with
  | nil => intro b; simp
  | cons t l ih =>
    intro b
    rw [List.foldl_cons, ih]
    simp [Bot.fire]

/-- Before any timer is due, advancing the clock only moves the clock. -/
theorem Bot.advanceTo_early (b : Bot) (t : Nat) (h : ∀ d ∈ b.timeouts, t < d) :
    b.advanceTo t = { b with now := max b.now t } := by
  have h1 : b.timeouts.filter (fun d => decide (d ≤ t)) = [] := by
    rw [List.filter_eq_nil_iff]
    intro d hd
    have := h d hd
    simp only [decide_eq_true_eq]
    omega
  have h2 : b.timeouts.filter (fun d => decide (t < d)) = b.timeouts := by
    rw [List.filter_eq_self]
    intro d hd
    simpa using h d hd
  simp only [Bot.advanceTo, h1, h2, List.foldl_nil]

/-- During a burst that falls within one second from `lo`, every notification
adds a timer and no timer fires. -/
theorem Bot.deliver_burst (lo : Nat) (events : List (Nat × MemberEvent)) :
    ∀ b : Bot, b.now < lo + 1000 →
      (∀ d ∈ b.timeouts, lo + 1000 ≤ d ∧ d < lo + 2000) →
      (∀ p ∈ events, lo ≤ p.1 ∧ p.1 < lo + 1000) →
      (∀ p ∈ events, p.2.schedules = true) →
      (b.deliver events).timeouts.length = b.timeouts.length + events.length ∧
      (b.deliver events).passes = b.passes ∧
      (∀ d ∈ (b.deliver events).timeouts, lo + 1000 ≤ d ∧ d < lo + 2000) := by
  induction events with
  | nil => intro b _ hd _ _; exact ⟨rfl, rfl, hd⟩
  | cons p rest ih =>
    intro b hnow hd hwin hsch
    obtain ⟨t, e⟩ := p
    have ht := hwin (t, e) (List.mem_cons_self _ _)
    have he := hsch (t, e) (List.mem_cons_self _ _)
    simp only at ht he
    have hearly : ∀ d ∈ b.timeouts, t < d := fun d hmem => by
      have := hd d hmem
      omega
    have hstep : (b.advanceTo t).handle e =
        { b with now := max b.now t, timeouts := b.timeouts ++ [max b.now t + 1000] } := by
      rw [Bot.handle_schedules _ _ he, Bot.advanceTo_early b t hearly]
      rfl
    have hmax : lo ≤ max b.now t ∧ max b.now t < lo + 1000 := by
      constructor
      · exact le_trans ht.1 (le_max_right _ _)
      · exact max_lt hnow ht.2
    have := ih ((b.advanceTo t).handle e) (by rw [hstep]; exact hmax.2)
      (by
        rw [hstep]
        intro d hmem
        simp only [List.mem_append, List.mem_singleton] at hmem
        rcases hmem with hmem | hmem
        · exact hd d hmem
        · omega)
      (fun q hq => hwin q (List.mem_cons_of_mem _ hq))
      (fun q hq => hsch q (List.mem_cons_of_mem _ hq))
    rw [hstep] at this
    simp only [Bot.deliver, hstep, List.length_cons]
    refine ⟨?_, this.2.1, this.2.2⟩
    rw [this.1]
    simp only [List.length_append, List.length_singleton]
    omega

/-- C10, as stated, fails: three notifications within a fifth of a second
leave three timers pending at once, and three passes are run. -/
theorem burst_passes_counterexample :
    (idleBot.deliver burst).timeouts = [1000, 1100, 1200] ∧
    (idleBot.deliver burst).passes = [] ∧
    ((idleBot.deliver burst).advanceTo 1200).passes = [1000, 1100, 1200] := by
  decide

/-- C10 as amended: there is no coalescing.  Each join, each leave and each
update that changes the number of roles of a member sets a timer of its own,
one second ahead: after `N` such notifications within one second from the first,
starting with no timer pending, `N` timers are pending and none has fired, and
once they are due exactly `N` passes have been started. -/
theorem deliver_schedules_one_pass_each (b : Bot) (events : List (Nat × MemberEvent))
    (first horizon : Nat) (hidle : b.timeouts = []) (hfirst : b.now ≤ first)
    (hwin : ∀ p ∈ events, first ≤ p.1 ∧ p.1 < first + 1000)
    (hsch : ∀ p ∈ events, p.2.schedules = true) (hlate : first + 2000 ≤ horizon) :
    (b.deliver events).timeouts.length = events.length ∧
    (b.deliver events).passes = b.passes ∧
    ((b.deliver events).advanceTo horizon).passes.length =
      b.passes.length + events.length ∧
    ((b.deliver events).advanceTo horizon).timeouts = [] := by
  obtain ⟨h1, h2, h3⟩ := Bot.deliver_burst first events b (by omega)
    (by rw [hidle]; intro d hd; cases hd) hwin hsch
  rw [hidle] at h1
  have hall : (b.deliver events).timeouts.filter (fun d => decide (d ≤ horizon)) =
      (b.deliver events).timeouts := by
    rw [List.filter_eq_self]
    intro d hd
    have := h3 d hd
    simp only [decide_eq_true_eq]
    omega
  have hnone : (b.deliver events).timeouts.filter (fun d => decide (horizon < d)) = [] := by
    rw [List.filter_eq_nil_iff]
    intro d hd
    have := h3 d hd
    simp only [decide_eq_true_eq]
    omega
  refine ⟨by simpa using h1, h2, ?_, ?_⟩
  · simp only [Bot.advanceTo, hall, Bot.foldl_fire, List.length_append, h2]
    rw [h1]
    simp
  · simp only [Bot.advanceTo, hnone]

/-- The amended C10 at the burst of three notifications. -/
theorem deliver_schedules_one_pass_each_witness :
    idleBot.timeouts = [] ∧ idleBot.now ≤ 0 ∧
    (∀ p ∈ burst, 0 ≤ p.1 ∧ p.1 < 0 + 1000) ∧ (∀ p ∈ burst, p.2.schedules = true) ∧
    (idleBot.deliver burst).timeouts.length = burst.length ∧
    (idleBot.deliver burst).passes = idleBot.passes ∧
    ((idleBot.deliver burst).advanceTo 2000).passes.length =
      idleBot.passes.length + burst.length ∧
    ((idleBot.deliver burst).advanceTo 2000).timeouts = [] :=
  ⟨by decide, by decide, by decide, by decide,
    deliver_schedules_one_pass_each idleBot burst 0 2000 (by decide) (by decide) (by decide)
      (by decide) (by decide)⟩

/-- C12, as stated, fails: with the template `{count} members` a binding whose
role is missing gets the label `Unknown Role`, the same binding with the role
present and held by nobody gets `0 members`; the resolver reports 0 for both. -/
theorem missing_role_label_counterexample :
    (countRoleMembers noRoleGuild "r".toList).1 = .ok 0 ∧
    (countRoleMembers zeroGuild "r".toList).1 = .ok 0 ∧
    (generateChannelName noRoleGuild "r".toList sevenData.nameTemplate).1 =
      .ok "Unknown Role".toList ∧
    (generateChannelName zeroGuild "r".toList sevenData.nameTemplate).1 =
      .ok "0 members".toList ∧
    "Unknown Role".toList ≠ "0 members".toList :=
  ⟨rfl, rfl, rfl, rfl, by decide⟩

/-- C12 as amended: the resolver returns 0 for a missing role as it does for a
role that nobody holds, but the labels are not the same.  For a missing role
`generateChannelName` returns the fixed label `Unknown Role` whatever the
template, without resolving a count; for a role that exists and whose count is
0 it renders the template with 0 and the name of the role. -/
theorem generateChannelName_missing_role (g : Guild) (roleId : Str)
    (nameTemplate : Option Str) :
    (g.role? roleId = none →
      countRoleMembers g roleId = (.ok 0, g) ∧
      generateChannelName g roleId nameTemplate = (.ok "Unknown Role".toList, g)) ∧
    (∀ role, g.role? roleId = some role → (countRoleMembers g roleId).1 = .ok 0 →
      (generateChannelName g roleId nameTemplate).1 =
        .ok (render (templateOrDefault nameTemplate) 0 role.name roleId g.name)) := by
  constructor
  · intro h
    simp [countRoleMembers, generateChannelName, h]
  · intro role hr hc
    obtain ⟨g1, h1, hs, -, -⟩ := countRoleMembers_spec g roleId
    rw [h1] at hc
    have h0 : effCount g roleId = 0 := by injection hc
    unfold generateChannelName
    simp only [hr, h1, h0, hs.name]

/-- The amended C12 at `noRoleGuild` and at `zeroGuild`. -/
theorem generateChannelName_missing_role_witness :
    (noRoleGuild.role? "r".toList = none ∧
      zeroGuild.role? "r".toList = some { id := "r".toList, name := "VIP".toList }) ∧
    (countRoleMembers noRoleGuild "r".toList = (.ok 0, noRoleGuild) ∧
      generateChannelName noRoleGuild "r".toList sevenData.nameTemplate =
        (.ok "Unknown Role".toList, noRoleGuild)) ∧
    (generateChannelName zeroGuild "r".toList sevenData.nameTemplate).1 =
      .ok (render (templateOrDefault sevenData.nameTemplate) 0 "VIP".toList "r".toList
        zeroGuild.name) :=
  ⟨⟨by decide, by decide⟩,
    (generateChannelName_missing_role noRoleGuild "r".toList sevenData.nameTemplate).1
      (by decide),
    (generateChannelName_missing_role zeroGuild "r".toList sevenData.nameTemplate).2
      { id := "r".toList, name := "VIP".toList } (by decide) rfl⟩

/-- C13: a binding whose target channel is missing from the cache, or is not a
voice channel, is skipped in silence: the body of `updateVoiceChannel` returns
at once without raising anything, and the guild is left exactly as it was, so
no roster request and no rename was sent. -/
theorem updateVoiceChannel_skips (g : Guild) (roleId : Str) (roleData : RoleData)
    (h : ∀ ch, g.channel? roleData.channelId = some ch → ch.type ≠ ChannelType.GuildVoice) :
    updateVoiceChannelBody g roleId roleData = (.ok (), g) ∧
    updateVoiceChannel g roleId roleData = (.ok (), g) ∧
    (updateVoiceChannel g roleId roleData).2.calls = g.calls := by
  have hb : updateVoiceChannelBody g roleId roleData = (.ok (), g) := by
    unfold updateVoiceChannelBody
    cases hc : g.channel? roleData.channelId with
    | none => rfl
    | some ch => simp [h ch hc]
  have hu : updateVoiceChannel g roleId roleData = (.ok (), g) := by
    unfold updateVoiceChannel
    rw [hb]
  exact ⟨hb, hu, by rw [hu]⟩

/-- C13 at a binding to a text channel and at a binding to a channel that is
not in the cache. -/
theorem updateVoiceChannel_skips_witness :
    (textGuild.channel? sevenData.channelId =
        some { id := "c".toList, type := ChannelType.GuildText, name := "general".toList,
               setNameRejected := false } ∧
      updateVoiceChannel textGuild "r".toList sevenData = (.ok (), textGuild)) ∧
    (sevenGuild.channel? "gone".toList = none ∧
      updateVoiceChannel sevenGuild "r".toList
        { channelId := "gone".toList, nameTemplate := none } = (.ok (), sevenGuild)) :=
  ⟨⟨by decide,
      (updateVoiceChannel_skips textGuild "r".toList sevenData (by decide)).2.1⟩,
    ⟨by decide,
      (updateVoiceChannel_skips sevenGuild "r".toList
        { channelId := "gone".toList, nameTemplate := none } (by decide)).2.1⟩⟩

/-- C17: the handler of `guildMemberUpdate` sets a timer for a pass exactly
when the member holds a different number of roles before and after the update;
otherwise it does nothing at all.  An update that swaps the role `a` for the
role `b` changes who holds `a` and `b` and sets no timer. -/
theorem guildMemberUpdate_schedules_iff (b : Bot) (oldRoles newRoles : List Str) :
    ((b.handle (MemberEvent.guildMemberUpdate oldRoles newRoles)).timeouts =
        b.timeouts ++ [b.now + 1000] ↔ oldRoles.length ≠ newRoles.length) ∧
    (oldRoles.length = newRoles.length →
      b.handle (MemberEvent.guildMemberUpdate oldRoles newRoles) = b) ∧
    (["a".toList] ≠ ["b".toList] ∧
      idleBot.handle (MemberEvent.guildMemberUpdate ["a".toList] ["b".toList]) = idleBot) := by
  refine ⟨?_, ?_, by decide, by decide⟩
  · by_cases h : oldRoles.length = newRoles.length
    · simp [Bot.handle, h]
    · simp [Bot.handle, h, Bot.setTimeout]
  · intro h
    simp [Bot.handle, h]

/-- C17 at an update that adds a role and at an update that swaps two roles. -/
theorem guildMemberUpdate_schedules_iff_witness :
    (idleBot.handle (MemberEvent.guildMemberUpdate [] ["a".toList])).timeouts = [1000] ∧
    idleBot.handle (MemberEvent.guildMemberUpdate ["a".toList] ["b".toList]) = idleBot :=
  ⟨by decide,
    (guildMemberUpdate_schedules_iff idleBot ["a".toList] ["b".toList]).2.1 (by decide)⟩

/-- Sending the rename and receiving its answer is what `updateVoiceChannel`
does in one go. -/
theorem updateVoiceChannel_request_answer (g : Guild) (roleId : Str) (roleData : RoleData) :
    (updateVoiceChannel g roleId roleData).2 =
      match updateVoiceChannelRequest g roleId roleData with
      | (none, g1) => g1
      | (some (channel, newName), g1) => updateVoiceChannelAnswer g1 channel newName := by
  unfold updateVoiceChannel updateVoiceChannelBody updateVoiceChannelRequest
  cases hc : g.channel? roleData.channelId with
  | none => rfl
  | some channel =>
    by_cases hty : channel.type = ChannelType.GuildVoice
    · obtain ⟨g1, h1, -, -, -⟩ := generateChannelName_spec g roleId roleData.nameTemplate
      by_cases hn : channel.name = labelOf g roleId roleData.nameTemplate
      · simp [hty, h1, hn]
      · cases hrej : channel.setNameRejected <;>
          simp [hty, h1, hn, setName, updateVoiceChannelAnswer, hrej]
    · simp [hty]

/-- A running pass only adds to the trace and to the suspended passes. -/
theorem Engine.run_grows (pass : Nat) (items : List WorkItem) :
    ∀ e : Engine, ∃ t s, (Engine.run pass items e).trace = e.trace ++ t ∧
      (Engine.run pass items e).suspended = e.suspended ++ s ∧
      (Engine.run pass items e).next = e.next ∧
      (Engine.run pass items e).config = e.config := by
  induction items with
  | nil => intro e; exact ⟨[PassEvent.finished pass], [], rfl, by simp [Engine.run], rfl, rfl⟩
  | cons item rest ih =>
    intro e
    obtain ⟨i, roleId, entry⟩ := item
    unfold Engine.run
    cases hg : e.client.guilds[i]? with
    | none => exact ih e
    | some g =>
      simp only
      cases hr : updateVoiceChannelRequest g roleId (normalizedData entry) with
      | mk sent g1 =>
        cases sent with
        | none => exact ih _
        | some p =>
          obtain ⟨channel, newName⟩ := p
          exact ⟨[], _, by simp, rfl, rfl, rfl⟩

/-- C11, as stated, fails: a second call of `updateAllChannels` while the
first pass awaits the answer to its rename is not skipped.  Both passes are in
progress at once, the second began before the first finished, and both sent
the rename. -/
theorem overlapping_passes_counterexample :
    idleEngine.start.suspended.map Suspended.pass = [0] ∧
    idleEngine.start.start.trace = [PassEvent.started 0, PassEvent.started 1] ∧
    idleEngine.start.start.suspended.map Suspended.pass = [0, 1] ∧
    idleEngine.start.start.client.guilds.map (fun g => renamesOf g.calls) =
      [[("c".toList, "7 members".toList), ("c".toList, "7 members".toList)]] ∧
    ((idleEngine.start.start.answer 0).answer 1).trace =
      [PassEvent.started 0, PassEvent.started 1, PassEvent.finished 0,
       PassEvent.finished 1] := by
  decide

theorem find?_setIn (roleId : Str) (entry : RoleEntry) (r : Str) (qs : List (Str × RoleEntry)) :
    ((setIn roleId entry qs).find? (fun q => decide (q.1 = r))).map Prod.snd =
      if r = roleId then some entry
      else (qs.find? (fun q => decide (q.1 = r))).map Prod.snd := by
  induction qs with
  | nil =>
    by_cases h : r = roleId
    · simp [setIn, h]
    · have : ¬ roleId = r := fun e => h e.symm
      simp [setIn, h, this]
  | cons q qs ih =>
    unfold setIn
    by_cases hq : q.1 = roleId
    · by_cases h : r = roleId
      · simp [hq, h]
      · have h1 : ¬ roleId = r := fun e => h e.symm
        have h2 : ¬ q.1 = r := fun e => h (e.symm.trans hq)
        simp [hq, h, h1, List.find?_cons]
    · by_cases h : r = roleId
      · subst h
        simp only [if_true] at ih
        simp only [hq, if_false, List.find?_cons, decide_False, ih, if_true]
      · by_cases h3 : q.1 = r
        · simp [hq, h, h3, List.find?_cons]
        · simp only [hq, if_false, List.find?_cons, h3, decide_False, ih, h]

theorem find?_filter_key (roleId r : Str) (qs : List (Str × RoleEntry)) :
    ((qs.filter (fun q => decide (q.1 ≠ roleId))).find? (fun q => decide (q.1 = r))).map
        Prod.snd =
      if r = roleId then none
      else (qs.find? (fun q => decide (q.1 = r))).map Prod.snd := by
  induction qs with
  | nil => simp
  | cons q qs ih =>
    by_cases hq : q.1 = roleId
    · by_cases h : r = roleId
      · subst h
        simp only [if_true] at ih
        simp only [List.filter_cons, hq, ne_eq, not_true_eq_false, decide_False, ih,
          if_true, Bool.false_eq_true, if_false]
      · have h2 : ¬ q.1 = r := fun e => h (e.symm.trans hq)
        simp only [List.filter_cons, hq, ne_eq, not_true_eq_false, decide_False, ih, h,
          if_false, Bool.false_eq_true, List.find?_cons]
        simp [hq ▸ h2]
    · by_cases h3 : q.1 = r
      · have h : ¬ r = roleId := fun e => hq (h3.trans e)
        simp [List.filter_cons, hq, h3, h, List.find?_cons]
      · simp only [List.filter_cons, hq, ne_eq, not_false_eq_true, decide_True, if_true,
          List.find?_cons, h3, decide_False, ih]

theorem find?_updateGuildConfig (guildId : Str)
    (f : List (Str × RoleEntry) → List (Str × RoleEntry)) (k : Str)
    (ps : List (Str × List (Str × RoleEntry))) :
    ((updateGuildConfig guildId f ps).find? (fun p => decide (p.1 = k))).map Prod.snd =
      if k = guildId then ((ps.find? (fun p => decide (p.1 = guildId))).map Prod.snd).map f
      else (ps.find? (fun p => decide (p.1 = k))).map Prod.snd := by
  induction ps with
  | nil => simp [updateGuildConfig]
  | cons p ps ih =>
    unfold updateGuildConfig
    by_cases hp : p.1 = guildId
    · by_cases h : k = guildId
      · simp [hp, h, List.find?_cons]
      · have h2 : ¬ p.1 = k := fun e => h (e.symm.trans hp)
        have h3 : ¬ guildId = k := fun e => h e.symm
        simp [hp, h, h3, List.find?_cons]
    · by_cases h : k = guildId
      · subst h
        simp only [if_true] at ih
        simp only [hp, if_false, List.find?_cons, decide_False, ih, if_true]
      · by_cases h3 : p.1 = k
        · simp [hp, h, h3, List.find?_cons]
        · simp only [hp, if_false, List.find?_cons, h3, decide_False, ih, h]

theorem Config.guildConfig?_setEntry (config : Config) (guildId roleId : Str)
    (entry : RoleEntry) (k : Str) :
    (config.setEntry guildId roleId entry).guildConfig? k =
      if k = guildId then (config.guildConfig? guildId).map (setIn roleId entry)
      else config.guildConfig? k :=
  find?_updateGuildConfig guildId _ k config.trackedRoles

theorem Config.guildConfig?_deleteEntry (config : Config) (guildId roleId k : Str) :
    (config.deleteEntry guildId roleId).guildConfig? k =
      if k = guildId then
        (config.guildConfig? guildId).map (fun es => es.filter (fun q => decide (q.1 ≠ roleId)))
      else config.guildConfig? k :=
  find?_updateGuildConfig guildId _ k config.trackedRoles

/-- The entries after an assignment: the assigned one where the guild has an
entry list, the others as before. -/
theorem Config.entry?_setEntry (config : Config) (guildId roleId : Str) (entry : RoleEntry)
    (k r : Str) :
    (config.setEntry guildId roleId entry).entry? k r =
      if k = guildId ∧ r = roleId then (config.guildConfig? guildId).map (fun _ => entry)
      else config.entry? k r := by
  unfold Config.entry?
  rw [Config.guildConfig?_setEntry]
  by_cases hk : k = guildId
  · subst hk
    cases hg : config.guildConfig? k with
    | none => simp
    | some es =>
      simp only [if_true, Option.map_some', Option.some_bind, true_and, find?_setIn]
  · simp [hk]

/-- The entries after a deletion. -/
theorem Config.entry?_deleteEntry (config : Config) (guildId roleId k r : Str) :
    (config.deleteEntry guildId roleId).entry? k r =
      if k = guildId ∧ r = roleId then none else config.entry? k r := by
  unfold Config.entry?
  rw [Config.guildConfig?_deleteEntry]
  by_cases hk : k = guildId
  · subst hk
    cases hg : config.guildConfig? k with
    | none => simp
    | some es =>
      simp only [if_true, Option.map_some', Option.some_bind, true_and, find?_filter_key]
  · simp [hk]

theorem Config.ensureGuild_of_some {config : Config} {guildId : Str}
    {es : List (Str × RoleEntry)} (h : config.guildConfig? guildId = some es) :
    config.ensureGuild guildId = config := by
  simp [Config.ensureGuild, h]

/-- After lines 272 to 274 the guild has an entry list. -/
theorem Config.guildConfig?_ensureGuild (config : Config) (guildId : Str) :
    ∃ es, (config.ensureGuild guildId).guildConfig? guildId = some es := by
  unfold Config.ensureGuild
  cases h : config.guildConfig? guildId with
  | none =>
    refine ⟨[], ?_⟩
    unfold Config.guildConfig? at h ⊢
    simp only [Option.map_eq_none'] at h
    simp [List.find?_append, h]
  | some es => exact ⟨es, h⟩

/-- Lines 272 to 274 add no entry. -/
theorem Config.entry?_ensureGuild (config : Config) (guildId k r : Str) :
    (config.ensureGuild guildId).entry? k r = config.entry? k r := by
  unfold Config.ensureGuild
  cases h : config.guildConfig? guildId with
  | some es => rfl
  | none =>
    unfold Config.guildConfig? at h
    simp only [Option.map_eq_none'] at h
    unfold Config.entry? Config.guildConfig?
    simp only [List.find?_append]
    cases hk : config.trackedRoles.find? (fun p => decide (p.1 = k)) with
    | some p => simp
    | none =>
      by_cases e : guildId = k
      · simp [e]
      · simp [e]

theorem Config.tracked_ensureGuild (config : Config) (guildId k r : Str) :
    (config.ensureGuild guildId).tracked k r = config.tracked k r := by
  unfold Config.tracked
  rw [Config.entry?_ensureGuild]

/-- A tracked role has an entry, and its guild an entry list. -/
theorem Config.tracked_entry {config : Config} {guildId roleId : Str}
    (h : config.tracked guildId roleId = true) :
    (∃ entry, config.entry? guildId roleId = some entry ∧ entry.truthy = true) ∧
      ∃ es, config.guildConfig? guildId = some es := by
  unfold Config.tracked at h
  cases he : config.entry? guildId roleId with
  | none => simp [he] at h
  | some entry =>
    simp only [he] at h
    refine ⟨⟨entry, rfl, h⟩, ?_⟩
    unfold Config.entry? at he
    cases hg : config.guildConfig? guildId with
    | none => simp [hg] at he
    | some es => exact ⟨es, rfl⟩

/-- The channel creation never throws, and a channel it returns is in the
cache of the guild it leaves. -/
theorem createVoiceChannel_spec (g : Guild) (roleId : Str) (nameTemplate : Option Str) :
    ∃ r g1, createVoiceChannel g roleId nameTemplate = (.ok r, g1) ∧
      ∀ ch, r = some ch → ch ∈ g1.channels := by
  obtain ⟨g1, h1, -, -, -⟩ :=
    generateChannelName_spec g roleId (some (nameTemplate.getD defaultTemplate))
  unfold createVoiceChannel
  simp only [h1]
  cases hc : g1.created with
  | none => exact ⟨none, _, rfl, fun ch h => by cases h⟩
  | some newId =>
    refine ⟨_, _, rfl, ?_⟩
    intro ch h
    cases h
    simp

theorem interactionCreate_addrole {app : App} {i : Interaction} {role : Role}
    {template : Option Str} (hchat : i.isChatInputCommand = true)
    (hperm : i.manageChannels = true) (hcmd : i.command = Command.addrole role template) :
    interactionCreate app i =
      addroleCommand { app with config := app.config.ensureGuild i.guildId } i role template := by
  unfold interactionCreate
  simp [hchat, hperm, hcmd]

theorem addroleCommand_tracked {app : App} {i : Interaction} {role : Role}
    {template : Option Str} (h : app.config.tracked i.guildId role.id = true) :
    addroleCommand app i role template = (.ok (), app.reply Reply.alreadyTracked) := by
  unfold addroleCommand
  simp only [h, if_true]

theorem addroleCommand_no_guild {app : App} {i : Interaction} {role : Role}
    {template : Option Str} (h : app.config.tracked i.guildId role.id = false)
    (hg : app.client.guilds[i.guild]? = none) :
    addroleCommand app i role template = (.ok (), app.reply Reply.createFailed) := by
  unfold addroleCommand
  simp only [h, Bool.false_eq_true, if_false, hg]

theorem addroleCommand_failed {app : App} {i : Interaction} {role : Role}
    {template : Option Str} {g g1 : Guild}
    (h : app.config.tracked i.guildId role.id = false)
    (hg : app.client.guilds[i.guild]? = some g)
    (hc : createVoiceChannel g role.id (some (templateOrDefault template)) = (.ok none, g1)) :
    addroleCommand app i role template =
      (.ok (), (app.withGuild i.guild g1).reply Reply.createFailed) := by
  unfold addroleCommand
  simp only [h, Bool.false_eq_true, if_false, hg, hc]

theorem addroleCommand_created {app : App} {i : Interaction} {role : Role}
    {template : Option Str} {g g1 : Guild} {newChannel : Channel}
    (h : app.config.tracked i.guildId role.id = false)
    (hg : app.client.guilds[i.guild]? = some g)
    (hc : createVoiceChannel g role.id (some (templateOrDefault template)) =
      (.ok (some newChannel), g1)) :
    addroleCommand app i role template =
      (.ok (),
        ({ app.withGuild i.guild g1 with
            config := (app.withGuild i.guild g1).config.setEntry i.guildId role.id
              (RoleEntry.data
                { channelId := newChannel.id,
                  nameTemplate := some (templateOrDefault template) }) }.saveConfig).reply
          (Reply.added newChannel.name)) := by
  unfold addroleCommand
  simp only [h, Bool.false_eq_true, if_false, hg, hc]

/-- C14: the `addrole` command on a role that is not tracked never throws.
When the channel creation fails (`createVoiceChannel` returns `null`, or the
guild is not in the cache) no entry of the store changes and nothing is
written to `config.json`.  When it succeeds, the entry of the role holds
exactly the id of the created channel and the supplied template (the default
one when none, or an empty one, was supplied), the configuration with that
entry is what is written, and the created channel is in the cache. -/
theorem addrole_binds_created_channel (app : App) (i : Interaction) (role : Role)
    (template : Option Str) (hchat : i.isChatInputCommand = true)
    (hperm : i.manageChannels = true) (hcmd : i.command = Command.addrole role template)
    (hnew : app.config.tracked i.guildId role.id = false) :
    (interactionCreate app i).1 = .ok () ∧
    (app.client.guilds[i.guild]? = none →
      (∀ k r, (interactionCreate app i).2.config.entry? k r = app.config.entry? k r) ∧
      (interactionCreate app i).2.written = app.written) ∧
    (∀ g, app.client.guilds[i.guild]? = some g →
      (createVoiceChannel g role.id (some (templateOrDefault template))).1 = .ok none →
      (∀ k r, (interactionCreate app i).2.config.entry? k r = app.config.entry? k r) ∧
      (interactionCreate app i).2.written = app.written) ∧
    (∀ g newChannel, app.client.guilds[i.guild]? = some g →
      (createVoiceChannel g role.id (some (templateOrDefault template))).1 =
        .ok (some newChannel) →
      (interactionCreate app i).2.config.entry? i.guildId role.id =
        some (RoleEntry.data
          { channelId := newChannel.id, nameTemplate := some (templateOrDefault template) }) ∧
      (interactionCreate app i).2.written =
        app.written ++ [(interactionCreate app i).2.config] ∧
      ∃ g1, (interactionCreate app i).2.client.guilds[i.guild]? = some g1 ∧
        newChannel ∈ g1.channels) := by
  have hnew2 : (app.config.ensureGuild i.guildId).tracked i.guildId role.id = false := by
    rw [Config.tracked_ensureGuild]
    exact hnew
  have hsame : ∀ k r, (app.config.ensureGuild i.guildId).entry? k r = app.config.entry? k r :=
    fun k r => Config.entry?_ensureGuild _ _ _ _
  rw [interactionCreate_addrole hchat hperm hcmd]
  have hcases : app.client.guilds[i.guild]? = none ∨
      ∃ g, app.client.guilds[i.guild]? = some g := by
    cases app.client.guilds[i.guild]? with
    | none => exact Or.inl rfl
    | some g => exact Or.inr ⟨g, rfl⟩
  rcases hcases with hg | ⟨g, hg⟩
  · have hrun := @addroleCommand_no_guild
      { app with config := app.config.ensureGuild i.guildId } i role template hnew2 hg
    rw [hrun]
    refine ⟨rfl, fun _ => ⟨hsame, rfl⟩, ?_, ?_⟩
    · intro g h
      rw [hg] at h
      cases h
    · intro g ch h
      rw [hg] at h
      cases h
  · obtain ⟨r, g1, hc, hmem⟩ :=
      createVoiceChannel_spec g role.id (some (templateOrDefault template))
    cases r with
    | none =>
      have hrun := @addroleCommand_failed
        { app with config := app.config.ensureGuild i.guildId } i role template g g1 hnew2 hg hc
      rw [hrun]
      refine ⟨rfl, fun h => ?_, fun _ _ _ => ⟨hsame, rfl⟩, ?_⟩
      · rw [hg] at h
        cases h
      · intro g2 ch h2 hch
        rw [hg] at h2
        cases h2
        rw [hc] at hch
        cases hch
    | some newChannel =>
      have hrun := @addroleCommand_created
        { app with config := app.config.ensureGuild i.guildId } i role template g g1
        newChannel hnew2 hg hc
      rw [hrun]
      refine ⟨rfl, fun h => ?_, ?_, ?_⟩
      · rw [hg] at h
        cases h
      · intro g2 h2 hch
        rw [hg] at h2
        cases h2
        rw [hc] at hch
        cases hch
      · intro g2 ch h2 hch
        rw [hg] at h2
        cases h2
        rw [hc] at hch
        cases hch
        obtain ⟨es, hes⟩ := Config.guildConfig?_ensureGuild app.config i.guildId
        have hlt : i.guild < app.client.guilds.length := by
          obtain ⟨h, -⟩ := List.getElem?_eq_some_iff.mp hg
          exact h
        refine ⟨?_, rfl, g1, ?_, hmem _ rfl⟩
        · simp only [App.saveConfig, App.reply, App.withGuild, Config.entry?_setEntry, hes,
            and_self, if_true, Option.map_some']
        · simp [App.saveConfig, App.reply, App.withGuild, hlt]

theorem addroleCommand_config (app : App) (i : Interaction) (role : Role)
    (template : Option Str) :
    (addroleCommand app i role template).2.config = app.config ∨
      ∃ e, (addroleCommand app i role template).2.config =
        app.config.setEntry i.guildId role.id e := by
  cases ht : app.config.tracked i.guildId role.id with
  | true => rw [addroleCommand_tracked ht]; exact Or.inl rfl
  | false =>
    cases hg : app.client.guilds[i.guild]? with
    | none => rw [addroleCommand_no_guild ht hg]; exact Or.inl rfl
    | some g =>
      obtain ⟨r, g1, hc, -⟩ :=
        createVoiceChannel_spec g role.id (some (templateOrDefault template))
      cases r with
      | none => rw [addroleCommand_failed ht hg hc]; exact Or.inl rfl
      | some ch => rw [addroleCommand_created ht hg hc]; exact Or.inr ⟨_, rfl⟩

theorem removeroleCommand_config (app : App) (i : Interaction) (role : Role) :
    (removeroleCommand app i role).2.config = app.config ∨
      (removeroleCommand app i role).2.config = app.config.deleteEntry i.guildId role.id := by
  unfold removeroleCommand
  cases app.config.entry? i.guildId role.id with
  | none => exact Or.inl rfl
  | some roleData =>
    simp only
    cases roleData.truthy with
    | false => exact Or.inl rfl
    | true =>
      simp only [Bool.not_true, Bool.false_eq_true, if_false]
      cases app.client.guilds[i.guild]? with
      | none => exact Or.inl rfl
      | some g =>
        simp only
        cases g.channel? roleData.channelId with
        | none => exact Or.inr rfl
        | some ch =>
          simp only
          cases i.deleteRejected with
          | true => exact Or.inl rfl
          | false => exact Or.inr rfl

theorem settemplateCommand_config (app : App) (i : Interaction) (role : Role)
    (newTemplate : Str) :
    (settemplateCommand app i role newTemplate).2.config = app.config ∨
      ∃ e, (settemplateCommand app i role newTemplate).2.config =
        app.config.setEntry i.guildId role.id e := by
  unfold settemplateCommand
  cases app.config.entry? i.guildId role.id with
  | none => exact Or.inl rfl
  | some existingData =>
    simp only
    cases existingData.truthy with
    | false => exact Or.inl rfl
    | true =>
      simp only [Bool.not_true, Bool.false_eq_true, if_false]
      cases hg : (App.saveConfig { app with
          config := app.config.setEntry i.guildId role.id
            (RoleEntry.data
              { channelId := existingData.channelId,
                nameTemplate := some newTemplate }) }).client.guilds[i.guild]? with
      | none => exact Or.inr ⟨_, rfl⟩
      | some g =>
        obtain ⟨g2, h2, -, -, -⟩ := updateVoiceChannel_spec g role.id
          { channelId := existingData.channelId, nameTemplate := some newTemplate }
        simp only [h2]
        exact Or.inr ⟨_, rfl⟩

theorem listrolesCommand_config (app : App) (i : Interaction) :
    (listrolesCommand app i).2.config = app.config := by
  unfold listrolesCommand
  cases app.config.guildConfig? i.guildId with
  | none => rfl
  | some trackedRoles =>
    simp only
    split
    · rfl
    · cases app.client.guilds[i.guild]? <;> rfl

theorem updateallCommand_config (app : App) : (updateallCommand app).2.config = app.config := by
  unfold updateallCommand
  rw [updateAllChannels_spec]
  rfl

/-- What a command can do to the tracked roles: nothing beyond lines 272 to
274, or one assignment or one deletion at the role of the command. -/
theorem interactionCreate_trackedRoles (app : App) (i : Interaction) :
    (interactionCreate app i).2.config.trackedRoles = app.config.trackedRoles ∨
    (interactionCreate app i).2.config.trackedRoles =
      (app.config.ensureGuild i.guildId).trackedRoles ∨
    ∃ role, i.command.role? = some role ∧
      ((∃ e, (interactionCreate app i).2.config =
          (app.config.ensureGuild i.guildId).setEntry i.guildId role.id e) ∨
        (interactionCreate app i).2.config =
          (app.config.ensureGuild i.guildId).deleteEntry i.guildId role.id) := by
  unfold interactionCreate
  cases i.isChatInputCommand with
  | false => exact Or.inl rfl
  | true =>
    cases i.manageChannels with
    | false => exact Or.inl rfl
    | true =>
      simp only [Bool.not_true, Bool.false_eq_true, if_false]
      cases hcmd : i.command with
      | addrole role template =>
        simp only [Command.role?]
        rcases addroleCommand_config { app with config := app.config.ensureGuild i.guildId }
          i role template with h | ⟨e, h⟩
        · exact Or.inr (Or.inl (by rw [h]))
        · exact Or.inr (Or.inr ⟨role, rfl, Or.inl ⟨e, h⟩⟩)
      | removerole role =>
        simp only [Command.role?]
        rcases removeroleCommand_config { app with config := app.config.ensureGuild i.guildId }
          i role with h | h
        · exact Or.inr (Or.inl (by rw [h]))
        · exact Or.inr (Or.inr ⟨role, rfl, Or.inr h⟩)
      | settemplate role template =>
        simp only [Command.role?]
        rcases settemplateCommand_config
          { app with config := app.config.ensureGuild i.guildId } i role template with
          h | ⟨e, h⟩
        · exact Or.inr (Or.inl (by rw [h]))
        · exact Or.inr (Or.inr ⟨role, rfl, Or.inl ⟨e, h⟩⟩)
      | listroles =>
        simp only
        exact Or.inr (Or.inl (by rw [listrolesCommand_config]))
      | setinterval seconds => exact Or.inr (Or.inl rfl)
      | updateall =>
        simp only
        exact Or.inr (Or.inl (by rw [updateallCommand_config]))

theorem Config.entry?_congr {c c2 : Config} (h : c2.trackedRoles = c.trackedRoles) (k r : Str) :
    c2.entry? k r = c.entry? k r := by
  unfold Config.entry? Config.guildConfig?
  rw [h]

theorem keys_updateGuildConfig (guildId : Str)
    (f : List (Str × RoleEntry) → List (Str × RoleEntry))
    (ps : List (Str × List (Str × RoleEntry))) :
    (updateGuildConfig guildId f ps).map Prod.fst = ps.map Prod.fst := by
  induction ps with
  | nil => rfl
  | cons p ps ih =>
    unfold updateGuildConfig
    by_cases hp : p.1 = guildId
    · simp [hp]
    · simp [hp, ih]

theorem mem_updateGuildConfig {guildId : Str}
    {f : List (Str × RoleEntry) → List (Str × RoleEntry)}
    {ps : List (Str × List (Str × RoleEntry))} {p : Str × List (Str × RoleEntry)}
    (h : p ∈ updateGuildConfig guildId f ps) :
    p ∈ ps ∨ ∃ p0 ∈ ps, p = (p0.1, f p0.2) := by
  induction ps with
  | nil => simp [updateGuildConfig] at h
  | cons q qs ih =>
    unfold updateGuildConfig at h
    by_cases hq : q.1 = guildId
    · simp only [hq, if_true, List.mem_cons] at h
      rcases h with h | h
      · exact Or.inr ⟨q, List.mem_cons_self _ _, by rw [h, hq]⟩
      · exact Or.inl (List.mem_cons_of_mem _ h)
    · simp only [hq, if_false, List.mem_cons] at h
      rcases h with h | h
      · exact Or.inl (h ▸ List.mem_cons_self _ _)
      · rcases ih h with h2 | ⟨p0, hp0, h2⟩
        · exact Or.inl (List.mem_cons_of_mem _ h2)
        · exact Or.inr ⟨p0, List.mem_cons_of_mem _ hp0, h2⟩

theorem mem_keys_setIn {roleId : Str} {entry : RoleEntry} {qs : List (Str × RoleEntry)}
    {k : Str} (h : k ∈ (setIn roleId entry qs).map Prod.fst) :
    k = roleId ∨ k ∈ qs.map Prod.fst := by
  induction qs with
  | nil => simpa [setIn] using h
  | cons q qs ih =>
    unfold setIn at h
    by_cases hq : q.1 = roleId
    · simp only [hq, if_true, List.map_cons, List.mem_cons] at h
      rcases h with h | h
      · exact Or.inl h
      · exact Or.inr (List.mem_cons_of_mem _ h)
    · simp only [hq, if_false, List.map_cons, List.mem_cons] at h
      rcases h with h | h
      · exact Or.inr (h ▸ List.mem_cons_self _ _)
      · rcases ih h with h2 | h2
        · exact Or.inl h2
        · exact Or.inr (List.mem_cons_of_mem _ h2)

theorem nodup_keys_setIn (roleId : Str) (entry : RoleEntry) {qs : List (Str × RoleEntry)}
    (h : (qs.map Prod.fst).Nodup) : ((setIn roleId entry qs).map Prod.fst).Nodup := by
  induction qs with
  | nil => simp [setIn]
  | cons q qs ih =>
    simp only [List.map_cons, List.nodup_cons] at h
    unfold setIn
    by_cases hq : q.1 = roleId
    · simp only [hq, if_true, List.map_cons, List.nodup_cons]
      exact ⟨hq ▸ h.1, h.2⟩
    · simp only [hq, if_false, List.map_cons, List.nodup_cons]
      refine ⟨fun hmem => ?_, ih h.2⟩
      rcases mem_keys_setIn hmem with h2 | h2
      · exact hq h2
      · exact h.1 h2

theorem nodup_keys_filter (roleId : Str) {qs : List (Str × RoleEntry)}
    (h : (qs.map Prod.fst).Nodup) :
    ((qs.filter (fun q => decide (q.1 ≠ roleId))).map Prod.fst).Nodup :=
  h.sublist ((List.filter_sublist qs).map Prod.fst)

theorem Config.WellKeyed.update {config : Config} (h : config.WellKeyed) (guildId : Str)
    (f : List (Str × RoleEntry) → List (Str × RoleEntry))
    (hf : ∀ qs : List (Str × RoleEntry), (qs.map Prod.fst).Nodup → ((f qs).map Prod.fst).Nodup) :
    Config.WellKeyed
      { config with trackedRoles := updateGuildConfig guildId f config.trackedRoles } := by
  refine ⟨?_, ?_⟩
  · simp only [keys_updateGuildConfig]
    exact h.1
  · intro p hp
    rcases mem_updateGuildConfig hp with h2 | ⟨p0, hp0, h2⟩
    · exact h.2 p h2
    · rw [h2]
      exact hf _ (h.2 p0 hp0)

theorem Config.WellKeyed.ensureGuild {config : Config} (h : config.WellKeyed) (guildId : Str) :
    (config.ensureGuild guildId).WellKeyed := by
  unfold Config.ensureGuild
  cases hg : config.guildConfig? guildId with
  | some es => exact h
  | none =>
    unfold Config.guildConfig? at hg
    simp only [Option.map_eq_none', List.find?_eq_none, decide_eq_true_eq] at hg
    refine ⟨?_, ?_⟩
    · simp only [List.map_append, List.map_cons, List.map_nil]
      rw [List.nodup_append]
      refine ⟨h.1, by simp, ?_⟩
      intro a ha hb
      simp only [List.mem_singleton] at hb
      subst hb
      obtain ⟨p, hp, hpa⟩ := List.mem_map.mp ha
      exact hg p hp hpa
    · intro p hp
      simp only [List.mem_append, List.mem_singleton] at hp
      rcases hp with hp | hp
      · exact h.2 p hp
      · rw [hp]
        simp

theorem Config.WellKeyed.congr {c c2 : Config} (h : c.WellKeyed)
    (e : c2.trackedRoles = c.trackedRoles) : c2.WellKeyed := by
  unfold Config.WellKeyed
  rw [e]
  exact h

/-- C14 at `creatingApp`, where the creation succeeds, and at `failingApp`,
where it fails. -/
theorem addrole_binds_created_channel_witness :
    (creatingApp.config.tracked "g".toList "s".toList = false ∧
      (interactionCreate creatingApp addStaff).2.config.entry? "g".toList "s".toList =
        some (RoleEntry.data
          { channelId := "n".toList, nameTemplate := some "{count} - {role}".toList }) ∧
      (interactionCreate creatingApp addStaff).2.written =
        creatingApp.written ++ [(interactionCreate creatingApp addStaff).2.config]) ∧
    ((∀ k r, (interactionCreate failingApp addStaff).2.config.entry? k r =
        failingApp.config.entry? k r) ∧
      (interactionCreate failingApp addStaff).2.written = failingApp.written) :=
  ⟨⟨by decide,
      ((addrole_binds_created_channel creatingApp addStaff
        { id := "s".toList, name := "Staff".toList } none rfl rfl rfl (by decide)).2.2.2
        creatingGuild
        { id := "n".toList, type := ChannelType.GuildVoice, name := "0 - Staff".toList,
          setNameRejected := false } (by decide) rfl).1,
      ((addrole_binds_created_channel creatingApp addStaff
        { id := "s".toList, name := "Staff".toList } none rfl rfl rfl (by decide)).2.2.2
        creatingGuild
        { id := "n".toList, type := ChannelType.GuildVoice, name := "0 - Staff".toList,
          setNameRejected := false } (by decide) rfl).2.1⟩,
    (addrole_binds_created_channel failingApp addStaff
      { id := "s".toList, name := "Staff".toList } none rfl rfl rfl (by decide)).2.2.1
      sevenGuild (by decide) rfl⟩

/-- C15: the store holds at most one entry per guild and role, and the
commands keep it so.  `addrole` on a role that is tracked only replies: the
configuration, hence the existing entry, is unchanged, no channel is created
and nothing is written.  No command changes the entry of another guild or of
another role than the one it names, whatever its outcome.  A configuration
without a repeated guild key or role key stays so. -/
theorem commands_keep_one_binding (app : App) (i : Interaction) :
    (∀ role template, i.isChatInputCommand = true → i.manageChannels = true →
      i.command = Command.addrole role template →
      app.config.tracked i.guildId role.id = true →
      interactionCreate app i = (.ok (), app.reply Reply.alreadyTracked)) ∧
    (∀ k r, ¬ (k = i.guildId ∧ ∃ role, i.command.role? = some role ∧ role.id = r) →
      (interactionCreate app i).2.config.entry? k r = app.config.entry? k r) ∧
    (app.config.WellKeyed → (interactionCreate app i).2.config.WellKeyed) := by
  refine ⟨?_, ?_, ?_⟩
  · intro role template hchat hperm hcmd ht
    obtain ⟨-, es, hes⟩ := Config.tracked_entry ht
    rw [interactionCreate_addrole hchat hperm hcmd, Config.ensureGuild_of_some hes]
    exact addroleCommand_tracked ht
  · intro k r hkr
    rcases interactionCreate_trackedRoles app i with h | h | ⟨role, hrole, ⟨e, h⟩ | h⟩
    · exact Config.entry?_congr h k r
    · rw [Config.entry?_congr h k r, Config.entry?_ensureGuild]
    · have hne : ¬ (k = i.guildId ∧ r = role.id) :=
        fun hh => hkr ⟨hh.1, role, hrole, hh.2.symm⟩
      rw [h, Config.entry?_setEntry, if_neg hne, Config.entry?_ensureGuild]
    · have hne : ¬ (k = i.guildId ∧ r = role.id) :=
        fun hh => hkr ⟨hh.1, role, hrole, hh.2.symm⟩
      rw [h, Config.entry?_deleteEntry, if_neg hne, Config.entry?_ensureGuild]
  · intro hw
    rcases interactionCreate_trackedRoles app i with h | h | ⟨role, -, ⟨e, h⟩ | h⟩
    · exact hw.congr h
    · exact (hw.ensureGuild i.guildId).congr h
    · rw [h]
      exact (hw.ensureGuild i.guildId).update i.guildId _
        (fun qs hq => nodup_keys_setIn role.id e hq)
    · rw [h]
      exact (hw.ensureGuild i.guildId).update i.guildId _
        (fun qs hq => nodup_keys_filter role.id hq)

/-- C15 at `addrole` for the role that `sevenConfig` tracks. -/
theorem commands_keep_one_binding_witness :
    failingApp.config.tracked "g".toList "r".toList = true ∧
    interactionCreate failingApp addVip = (.ok (), failingApp.reply Reply.alreadyTracked) ∧
    (interactionCreate failingApp addVip).2.config = sevenConfig ∧
    (interactionCreate creatingApp addStaff).2.config.entry? "g".toList "r".toList =
      creatingApp.config.entry? "g".toList "r".toList :=
  ⟨by decide,
    (commands_keep_one_binding failingApp addVip).1 { id := "r".toList, name := "VIP".toList }
      (some "{count}".toList) rfl rfl rfl (by decide),
    by decide,
    (commands_keep_one_binding creatingApp addStaff).2.1 "g".toList "r".toList (by decide)⟩

theorem Placeholder.name_plain (p : Placeholder) : '{' ∉ p.name ∧ '}' ∉ p.name := by
  cases p <;> decide

theorem Placeholder.name_injective {p q : Placeholder} (h : p.name = q.name) : p = q := by
  revert h
  cases p <;> cases q <;> decide

theorem placeholderAt_some {s : Str} {p : Placeholder} (h : placeholderAt s = some p) :
    p.token <+: s := by
  unfold placeholderAt at h
  split at h
  · cases h
    exact List.isPrefixOf_iff_prefix.mp (by assumption)
  · split at h
    · cases h
      exact List.isPrefixOf_iff_prefix.mp (by assumption)
    · split at h
      · cases h
        exact List.isPrefixOf_iff_prefix.mp (by assumption)
      · split at h
        · cases h
          exact List.isPrefixOf_iff_prefix.mp (by assumption)
        · cases h

theorem placeholderAt_none {s : Str} (h : placeholderAt s = none) (q : Placeholder) :
    ¬ q.token <+: s := by
  unfold placeholderAt at h
  intro hq
  have hq2 := List.isPrefixOf_iff_prefix.mpr hq
  split at h
  · cases h
  · split at h
    · cases h
    · split at h
      · cases h
      · split at h
        · cases h
        · cases q <;> contradiction

theorem segmentsGo_skip (u : Str) : ∀ rest : Str,
    segmentsGo u.length (u ++ rest) = segmentsGo 0 rest := by
  induction u with
  | nil => intro rest; rfl
  | cons c u ih =>
    intro rest
    rw [List.length_cons, List.cons_append]
    exact ih rest

/-- The scan at a token. -/
theorem segmentsGo_hit {p : Placeholder} {rest : Str}
    (h : placeholderAt (p.token ++ rest) = some p) :
    segmentsGo 0 (p.token ++ rest) = Segment.tok p :: segmentsGo 0 rest := by
  have e : p.token = '{' :: (p.name ++ ['}']) := rfl
  have hlen : p.token.length - 1 = (p.name ++ ['}']).length := by
    rw [e]
    simp
  have hgo : segmentsGo 0 ('{' :: ((p.name ++ ['}']) ++ rest)) =
      Segment.tok p :: segmentsGo (p.token.length - 1) ((p.name ++ ['}']) ++ rest) := by
    have h2 : placeholderAt ('{' :: ((p.name ++ ['}']) ++ rest)) = some p := h
    simp only [segmentsGo, h2]
  have e2 : p.token ++ rest = '{' :: ((p.name ++ ['}']) ++ rest) := rfl
  rw [e2, hgo, hlen, segmentsGo_skip]

/-- The pieces of a template spell the template, and no token starts at a
piece that is a character. -/
theorem segmentsGo_parsed : ∀ (n : Nat) (t : Str), t.length ≤ n →
    emitWith Placeholder.token (segmentsGo 0 t) = t ∧ Parsed (segmentsGo 0 t) := by
  intro n
  induction n with
  | zero =>
    intro t ht
    have : t = [] := List.length_eq_zero.mp (Nat.le_zero.mp ht)
    subst this
    exact ⟨rfl, trivial⟩
  | succ n ih =>
    intro t ht
    cases t with
    | nil => exact ⟨rfl, trivial⟩
    | cons c r =>
      cases hp : placeholderAt (c :: r) with
      | none =>
        have hgo : segmentsGo 0 (c :: r) = Segment.lit c :: segmentsGo 0 r := by
          simp only [segmentsGo, hp]
        obtain ⟨h1, h2⟩ := ih r (by simp only [List.length_cons] at ht; omega)
        rw [hgo]
        refine ⟨by simp only [emitWith, h1], ?_, h2⟩
        intro q
        rw [h1]
        exact placeholderAt_none hp q
      | some p =>
        obtain ⟨rest, hrest⟩ := placeholderAt_some hp
        rw [← hrest] at hp ⊢
        rw [segmentsGo_hit hp]
        have hlen : rest.length ≤ n := by
          have : (c :: r).length = p.token.length + rest.length := by
            rw [← hrest, List.length_append]
          have hpos : 0 < p.token.length := by
            simp [Placeholder.token, braceToken]
          simp only [List.length_cons] at this ht
          omega
        obtain ⟨h1, h2⟩ := ih rest hlen
        exact ⟨by simp only [emitWith, h1], h2⟩

/-- The simultaneous substitution writes the pieces of the template, each
token as its value. -/
theorem simultaneousGo_eq_emitWith (value : Placeholder → Str) :
    ∀ (s : Str) (k : Nat), simultaneousGo value k s = emitWith value (segmentsGo k s) := by
  intro s
  induction s with
  | nil => intro k; cases k <;> rfl
  | cons c r ih =>
    intro k
    cases k with
    | succ k => exact ih k
    | zero =>
      cases hp : placeholderAt (c :: r) with
      | none => simp only [simultaneousGo, segmentsGo, hp, emitWith, ih]
      | some p => simp only [simultaneousGo, segmentsGo, hp, emitWith, ih]

theorem toDigitsCore_ne_nil : ∀ (fuel n : Nat) (ds : List Char), ds ≠ [] →
    Nat.toDigitsCore 10 fuel n ds ≠ [] := by
  intro fuel
  induction fuel with
  | zero => intro n ds h; simpa [Nat.toDigitsCore] using h
  | succ f ih =>
    intro n ds _
    simp only [Nat.toDigitsCore]
    split
    · simp
    · exact ih _ _ (by simp)

theorem numberToString_ne_nil (n : Nat) : numberToString n ≠ [] := by
  have : numberToString n = Nat.toDigitsCore 10 (n + 1) n [] := rfl
  rw [this]
  simp only [Nat.toDigitsCore]
  split
  · simp
  · exact toDigitsCore_ne_nil _ _ _ (by simp)

theorem numberToString_isDigit (n : Nat) : ∀ c ∈ numberToString n, c.isDigit = true := by
  have : numberToString n = Nat.toDigitsCore 10 (n + 1) n [] := rfl
  rw [this]
  exact digits_aux _ (by decide) _ _ _ (by simp)

/-- The digits of a count are not a part of a placeholder name. -/
theorem numberToString_not_in_name (n : Nat) (p : Placeholder) :
    ¬ numberToString n <:+: p.name := by
  intro h
  cases hd : numberToString n with
  | nil => exact numberToString_ne_nil n hd
  | cons c r =>
    have hc : c ∈ numberToString n := by rw [hd]; exact List.mem_cons_self _ _
    have h1 := numberToString_isDigit n c hc
    have h2 : c ∈ p.name := List.IsInfix.mem hc h
    have h3 : ∀ x ∈ p.name, x.isDigit = false := by cases p <;> decide
    rw [h3 c h2] at h1
    cases h1

/-- A closed name that starts the text written for some pieces, where every
token is written as itself or as text without braces that is no part of the
name, starts the text that the pieces spell. -/
theorem closed_name_of_emitWith {p : Placeholder} {e : Placeholder → Str}
    (H : ∀ q, e q = q.token ∨ ('{' ∉ e q ∧ '}' ∉ e q ∧ ¬ e q <:+: p.name)) :
    ∀ (r : List Segment) (u : Str), u <:+ p.name → u ++ ['}'] <+: emitWith e r →
      u ++ ['}'] <+: emitWith Placeholder.token r := by
  intro r
  induction r with
  | nil =>
    intro u _ h
    have := List.IsPrefix.length_le h
    simp [emitWith] at this
  | cons seg r ih =>
    intro u hu h
    have hplain : '{' ∉ u := fun hm => p.name_plain.1 (List.IsSuffix.mem hm hu)
    cases seg with
    | lit c =>
      simp only [emitWith] at h ⊢
      cases u with
      | nil =>
        rw [List.nil_append, List.cons_prefix_cons] at h
        rw [List.nil_append, List.cons_prefix_cons]
        exact ⟨h.1, List.nil_prefix⟩
      | cons a u2 =>
        rw [List.cons_append, List.cons_prefix_cons] at h
        rw [List.cons_append, List.cons_prefix_cons]
        exact ⟨h.1, ih u2 ((List.suffix_cons a u2).trans hu) h.2⟩
    | tok q =>
      simp only [emitWith] at h ⊢
      rcases H q with hq | ⟨hq1, hq2, hq3⟩
      · exfalso
        rw [hq] at h
        have e1 : q.token ++ emitWith e r = '{' :: ((q.name ++ ['}']) ++ emitWith e r) := rfl
        rw [e1] at h
        cases u with
        | nil =>
          rw [List.nil_append, List.cons_prefix_cons] at h
          exact absurd h.1 (by decide)
        | cons a u2 =>
          rw [List.cons_append, List.cons_prefix_cons] at h
          exact hplain (h.1 ▸ List.mem_cons_self _ _)
      · exfalso
        rcases List.prefix_or_prefix_of_prefix h (List.prefix_append (e q) _) with h2 | h2
        · exact hq2 (List.IsPrefix.mem (by simp) h2)
        · rcases List.prefix_concat_iff.mp h2 with h3 | h3
          · exact hq2 (h3 ▸ by simp)
          · obtain ⟨t, ht⟩ := h3
            obtain ⟨s, hs⟩ := hu
            exact hq3 ⟨s, t, by rw [← hs, ← ht, List.append_assoc]⟩

/-- No match of the token being replaced starts at a piece that is a
character. -/
theorem no_match_at_lit {p : Placeholder} {e : Placeholder → Str}
    (H : ∀ q, e q = q.token ∨ ('{' ∉ e q ∧ '}' ∉ e q ∧ ¬ e q <:+: p.name))
    {c : Char} {r : List Segment} (hp : Parsed (Segment.lit c :: r)) :
    ¬ p.token <+: c :: emitWith e r := by
  intro h
  have e1 : p.token = '{' :: (p.name ++ ['}']) := rfl
  rw [e1, List.cons_prefix_cons] at h
  have := closed_name_of_emitWith H r p.name (List.suffix_refl _) h.2
  apply hp.1 p
  rw [e1, List.cons_prefix_cons]
  exact ⟨h.1, this⟩

/-- One `replace` step on the text written for the pieces of a template: the
token being replaced is written as its value, every other token as before. -/
theorem replaceGo_emitWith {p : Placeholder} {e : Placeholder → Str} {v : Str}
    (hv : '$' ∉ v) (hp : e p = p.token)
    (H : ∀ q, e q = q.token ∨ ('{' ∉ e q ∧ '}' ∉ e q ∧ ¬ e q <:+: p.name)) :
    ∀ segs : List Segment, Parsed segs → ∀ before : Str,
      replaceGo p.token v 0 before (emitWith e segs) =
        emitWith (Function.update e p v) segs := by
  intro segs
  induction segs with
  | nil => intro _ before; rfl
  | cons seg r ih =>
    intro hparsed before
    cases seg with
    | lit c =>
      have hno := no_match_at_lit H hparsed
      simp only [emitWith]
      rw [replaceGo_miss _ _ _ _ _ hno, ih hparsed.2]
    | tok q =>
      have hrest : Parsed r := hparsed
      simp only [emitWith]
      by_cases hq : q = p
      · subst hq
        have e1 : q.token = '{' :: (q.name ++ ['}']) := rfl
        rw [hp, Function.update_same]
        conv_lhs => rw [e1, replaceGo_hit, ← e1]
        rw [getSubstitution_plain _ _ _ _ hv, ih hrest]
      · rw [Function.update_noteq hq]
        rcases H q with hq1 | ⟨hq1, -, -⟩
        · obtain ⟨a, ha, h0⟩ := replaceGo_keeps p.name_plain.1 p.name_plain.2
            q.name_plain.1 q.name_plain.2
            (fun hn => hq (Placeholder.name_injective hn).symm) v 0 [] before
            (emitWith e r) (Nat.le_refl _)
          rw [h0 rfl] at ha
          rw [hq1]
          have ha2 : replaceGo p.token v 0 before (q.token ++ emitWith e r) =
              q.token ++ replaceGo p.token v 0 (before ++ [] ++ q.token) (emitWith e r) := by
            simpa [Placeholder.token] using ha
          rw [ha2, ih hrest]
        · rw [replaceGo_copy p.token v (e q)
            (fun c hc rest => braceToken_needs_brace p.name (fun hc2 => hq1 (hc2 ▸ hc)) rest),
            ih hrest]

theorem replaceAll_emitWith {p : Placeholder} {e : Placeholder → Str} {v : Str}
    (hv : '$' ∉ v) (hp : e p = p.token)
    (H : ∀ q, e q = q.token ∨ ('{' ∉ e q ∧ '}' ∉ e q ∧ ¬ e q <:+: p.name))
    (segs : List Segment) (hs : Parsed segs) :
    replaceAll p.token v (emitWith e segs) = emitWith (Function.update e p v) segs :=
  replaceGo_emitWith hv hp H segs hs []

/-- C16, as stated, fails: with the role name `guild`, which holds neither an
opening brace nor a dollar sign, the template `{{role}}` becomes `{guild}`
after the `{role}` step and the `{guild}` step then replaces it, while the
simultaneous substitution leaves `{guild}`; the same happens with the role
name `}` in the template `{guild{role}`. -/
theorem sequential_differs_counterexample :
    ('{' ∉ "guild".toList ∧ '$' ∉ "guild".toList ∧ '{' ∉ "42".toList ∧ '$' ∉ "42".toList ∧
      '$' ∉ "Home".toList ∧ '{' ∉ "\x7d".toList ∧ '$' ∉ "\x7d".toList) ∧
    render "{{role}}".toList 5 "guild".toList "42".toList "Home".toList = "Home".toList ∧
    simultaneous "{{role}}".toList 5 "guild".toList "42".toList "Home".toList =
      "{guild}".toList ∧
    render "\x7bguild{role}".toList 5 "\x7d".toList "42".toList "Home".toList = "Home".toList ∧
    simultaneous "\x7bguild{role}".toList 5 "\x7d".toList "42".toList "Home".toList =
      "{guild}".toList := by
  decide

/-- C16 as amended: `generateChannelName` applies the four substitutions in
sequence, each on the result of the one before.  When the role name and the
role id hold no brace and no dollar sign and are no part of the name of a
placeholder substituted after them (the role name no part of `roleid` or
`guild`, the role id no part of `guild`; the empty string is a part of every
name), and the guild name holds no dollar sign, the result is the single-pass
simultaneous substitution of the four tokens in the template. -/
theorem render_eq_simultaneous (template : Str) (memberCount : Nat)
    (roleName roleId guildName : Str)
    (hr : '$' ∉ roleName ∧ '{' ∉ roleName ∧ '}' ∉ roleName)
    (hi : '$' ∉ roleId ∧ '{' ∉ roleId ∧ '}' ∉ roleId)
    (hg : '$' ∉ guildName)
    (hrn : ¬ roleName <:+: "roleid".toList ∧ ¬ roleName <:+: "guild".toList)
    (hin : ¬ roleId <:+: "guild".toList) :
    render template memberCount roleName roleId guildName =
      simultaneous template memberCount roleName roleId guildName := by
  obtain ⟨hspell, hparsed⟩ := segmentsGo_parsed template.length template (Nat.le_refl _)
  have hd := numberToString_plain memberCount
  have hd1 : '$' ∉ numberToString memberCount := fun h => (hd _ h).1 rfl
  have hd2 : '{' ∉ numberToString memberCount := fun h => (hd _ h).2.1 rfl
  have hd3 : '}' ∉ numberToString memberCount := fun h => (hd _ h).2.2 rfl
  have s1 := @replaceAll_emitWith Placeholder.count Placeholder.token
    (numberToString memberCount) hd1 rfl (fun q => Or.inl rfl) _ hparsed
  have s2 := @replaceAll_emitWith Placeholder.role
    (Function.update Placeholder.token Placeholder.count (numberToString memberCount))
    roleName hr.1 rfl
    (fun q => by
      cases q
      · exact Or.inr ⟨by simpa using hd2, by simpa using hd3,
          by simpa using numberToString_not_in_name memberCount Placeholder.role⟩
      all_goals exact Or.inl rfl) _ hparsed
  have s3 := @replaceAll_emitWith Placeholder.roleid
    (Function.update
      (Function.update Placeholder.token Placeholder.count (numberToString memberCount))
      Placeholder.role roleName)
    roleId hi.1 rfl
    (fun q => by
      cases q
      · exact Or.inr ⟨by simpa using hd2, by simpa using hd3,
          by simpa using numberToString_not_in_name memberCount Placeholder.roleid⟩
      · exact Or.inr ⟨by simpa using hr.2.1, by simpa using hr.2.2, by simpa using hrn.1⟩
      all_goals exact Or.inl rfl) _ hparsed
  have s4 := @replaceAll_emitWith Placeholder.guild
    (Function.update
      (Function.update
        (Function.update Placeholder.token Placeholder.count (numberToString memberCount))
        Placeholder.role roleName)
      Placeholder.roleid roleId)
    guildName hg rfl
    (fun q => by
      cases q
      · exact Or.inr ⟨by simpa using hd2, by simpa using hd3,
          by simpa using numberToString_not_in_name memberCount Placeholder.guild⟩
      · exact Or.inr ⟨by simpa using hr.2.1, by simpa using hr.2.2, by simpa using hrn.2⟩
      · exact Or.inr ⟨by simpa using hi.2.1, by simpa using hi.2.2, by simpa using hin⟩
      · exact Or.inl rfl) _ hparsed
  have hfinal : Function.update
      (Function.update
        (Function.update
          (Function.update Placeholder.token Placeholder.count (numberToString memberCount))
          Placeholder.role roleName)
        Placeholder.roleid roleId)
      Placeholder.guild guildName =
      placeholderValue memberCount roleName roleId guildName := by
    funext q
    cases q <;> rfl
  have hrender : render template memberCount roleName roleId guildName =
      replaceAll Placeholder.guild.token guildName
        (replaceAll Placeholder.roleid.token roleId
          (replaceAll Placeholder.role.token roleName
            (replaceAll Placeholder.count.token (numberToString memberCount)
              (emitWith Placeholder.token (segmentsGo 0 template))))) := by
    rw [hspell]
    rfl
  rw [hrender, s1, s2, s3, s4, hfinal]
  exact (simultaneousGo_eq_emitWith _ template 0).symm

/-- The amended C16 at a template with the four tokens and an unknown one. -/
theorem render_eq_simultaneous_witness :
    ('$' ∉ "VIP".toList ∧ '{' ∉ "VIP".toList ∧ '}' ∉ "VIP".toList) ∧
    ('$' ∉ "42".toList ∧ '{' ∉ "42".toList ∧ '}' ∉ "42".toList) ∧
    '$' ∉ "Home".toList ∧
    (¬ "VIP".toList <:+: "roleid".toList ∧ ¬ "VIP".toList <:+: "guild".toList) ∧
    ¬ "42".toList <:+: "guild".toList ∧
    render "{count} - {role} {roleid} {guild}{x}".toList 5 "VIP".toList "42".toList
        "Home".toList =
      simultaneous "{count} - {role} {roleid} {guild}{x}".toList 5 "VIP".toList "42".toList
        "Home".toList ∧
    simultaneous "{count} - {role} {roleid} {guild}{x}".toList 5 "VIP".toList "42".toList
        "Home".toList = "5 - VIP 42 Home{x}".toList :=
  ⟨by decide, by decide, by decide, by decide, by decide,
    render_eq_simultaneous "{count} - {role} {roleid} {guild}{x}".toList 5 "VIP".toList
      "42".toList "Home".toList (by decide) (by decide) (by decide) (by decide) (by decide),
    by decide⟩

/-- C2, as stated, fails: when two bindings of a guild target the same channel
and their labels differ, every pass renames the channel twice.  With all
renames accepted and no membership change, the second pass sends both renames
again. -/
theorem shared_channel_counterexample :
    (∀ g ∈ ({ guilds := [sharedGuild] } : Client).guilds, ∀ ch ∈ g.channels,
      ch.setNameRejected = false) ∧
    (updateAllChannels { guilds := [sharedGuild] } sharedConfig).2.renames =
      [[("c".toList, "7 members".toList), ("c".toList, "0 members".toList)]] ∧
    (updateAllChannels (updateAllChannels { guilds := [sharedGuild] } sharedConfig).2
        sharedConfig).2.renames =
      [[("c".toList, "7 members".toList), ("c".toList, "0 members".toList),
        ("c".toList, "7 members".toList), ("c".toList, "0 members".toList)]] := by
  decide

/-- C6, as stated, fails: without a template the label of a role named `$&`
is `7 - {role}`, not `7 - $&`, and the label of a role named `{guild}` is
`7 - Home`, not `7 - {guild}`. -/
theorem default_label_counterexample :
    (generateChannelName dollarGuild "r".toList none).1 = .ok "7 - {role}".toList ∧
    "7 - {role}".toList ≠ "7 - ".toList ++ "$&".toList ∧
    (generateChannelName braceGuild "r".toList none).1 = .ok "7 - Home".toList ∧
    "7 - Home".toList ≠ "7 - ".toList ++ "{guild}".toList :=
  ⟨rfl, by decide, rfl, by decide⟩

/-- A pass runs as it would with no other pass in progress: the suspended
passes are carried along and play no part in what the pass does. -/
theorem Engine.run_suspended (pass : Nat) (items : List WorkItem) :
    ∀ (client : Client) (config : Config) (waiting : List Suspended) (next : Nat)
      (trace : List PassEvent),
      Engine.run pass items
          { client := client, config := config, suspended := waiting, next := next,
            trace := trace } =
        { Engine.run pass items
            { client := client, config := config, suspended := [], next := next,
              trace := trace } with
          suspended := waiting ++
            (Engine.run pass items
              { client := client, config := config, suspended := [], next := next,
                trace := trace }).suspended } := by
  induction items with
  | nil =>
    intro client config waiting next trace
    simp [Engine.run]
  | cons item rest ih =>
    intro client config waiting next trace
    obtain ⟨i, roleId, entry⟩ := item
    unfold Engine.run
    cases hg : client.guilds[i]? with
    | none =>
      simp only [hg]
      exact ih client config waiting next trace
    | some g =>
      simp only [hg]
      cases hr : updateVoiceChannelRequest g roleId (normalizedData entry) with
      | mk sent g1 =>
        cases sent with
        | none =>
          simp only
          exact ih _ config waiting next trace
        | some p =>
          obtain ⟨channel, newName⟩ := p
          simp

/-- The rename that a binding with an out-of-date voice channel sends. -/
theorem updateVoiceChannelRequest_sends (g : Guild) (roleId : Str) (roleData : RoleData)
    (ch : Channel) (label : Str) (hch : g.channel? roleData.channelId = some ch)
    (hty : ch.type = ChannelType.GuildVoice)
    (hlab : (generateChannelName g roleId roleData.nameTemplate).1 = .ok label)
    (hne : ch.name ≠ label) :
    ∃ g1, updateVoiceChannelRequest g roleId roleData = (some (ch, label), g1) ∧
      renamesOf g1.calls = renamesOf g.calls ++ [(roleData.channelId, label)] := by
  obtain ⟨g1, h1, -, -, hl⟩ := generateChannelName_spec g roleId roleData.nameTemplate
  rw [h1] at hlab
  have hlab2 : labelOf g roleId roleData.nameTemplate = label := by injection hlab
  subst hlab2
  refine ⟨{ g1 with calls := g1.calls ++
    [ApiCall.setName ch.id (labelOf g roleId roleData.nameTemplate)] }, ?_, ?_⟩
  · unfold updateVoiceChannelRequest
    simp [hch, hty, h1, hne]
  · simp [renamesOf_append, renamesOf, hl, Guild.channel?_id hch]

/-- C11 as amended: the code has no guard against overlapping passes.  A call
of `updateAllChannels` (by the periodic timer, by a timer of a membership
handler or by the `updateall` command) starts a pass at once, whatever passes
await an answer.  The new pass is not skipped and not queued: it does exactly
what it would do with no pass in progress, the passes in progress being
carried along untouched.  It goes through the bindings from the first one on:
without bindings it finishes at once; a first binding that needs no rename is
processed and the pass goes on with the rest; a first binding whose voice
channel does not carry its label gets its rename sent, and the pass is then in
progress beside the earlier ones.  Within a pass, a binding is processed as
`updateVoiceChannel` processes it. -/
theorem start_never_skipped (e : Engine) :
    (∃ more, e.start.trace = e.trace ++ PassEvent.started e.next :: more) ∧
    (∃ more, e.start.suspended = e.suspended ++ more) ∧
    e.start.next = e.next + 1 ∧
    (∀ (g : Guild) (roleId : Str) (roleData : RoleData),
      (updateVoiceChannel g roleId roleData).2 =
        match updateVoiceChannelRequest g roleId roleData with
        | (none, g1) => g1
        | (some (channel, newName), g1) => updateVoiceChannelAnswer g1 channel newName) ∧
    e.start =
      { Engine.start { e with suspended := [] } with
        suspended := e.suspended ++ (Engine.start { e with suspended := [] }).suspended } ∧
    (workList e.client e.config = [] →
      e.start =
        { e with
          next := e.next + 1,
          trace := e.trace ++ [PassEvent.started e.next, PassEvent.finished e.next] }) ∧
    (∀ (i : Nat) (roleId : Str) (entry : RoleEntry) (rest : List WorkItem) (g g1 : Guild),
      workList e.client e.config = (i, roleId, entry) :: rest →
      e.client.guilds[i]? = some g →
      updateVoiceChannelRequest g roleId (normalizedData entry) = (none, g1) →
      e.start =
        Engine.run e.next rest
          { e with
            client := { guilds := e.client.guilds.set i g1 },
            next := e.next + 1,
            trace := e.trace ++ [PassEvent.started e.next] }) ∧
    (∀ (i : Nat) (roleId : Str) (entry : RoleEntry) (rest : List WorkItem) (g g1 : Guild)
        (channel : Channel) (newName : Str),
      workList e.client e.config = (i, roleId, entry) :: rest →
      e.client.guilds[i]? = some g →
      updateVoiceChannelRequest g roleId (normalizedData entry) =
        (some (channel, newName), g1) →
      e.start =
        { e with
          client := { guilds := e.client.guilds.set i g1 },
          suspended := e.suspended ++
            [{ pass := e.next, guild := i, channel := channel, newName := newName,
               rest := rest }],
          next := e.next + 1,
          trace := e.trace ++ [PassEvent.started e.next] }) ∧
    (∀ (g : Guild) (roleId : Str) (roleData : RoleData) (ch : Channel) (label : Str),
      g.channel? roleData.channelId = some ch → ch.type = ChannelType.GuildVoice →
      (generateChannelName g roleId roleData.nameTemplate).1 = .ok label →
      ch.name ≠ label →
      ∃ g1, updateVoiceChannelRequest g roleId roleData = (some (ch, label), g1) ∧
        renamesOf g1.calls = renamesOf g.calls ++ [(roleData.channelId, label)]) := by
  obtain ⟨t, s, ht, hs, hn, -⟩ := Engine.run_grows e.next (workList e.client e.config)
    { e with next := e.next + 1, trace := e.trace ++ [PassEvent.started e.next] }
  refine ⟨⟨t, ?_⟩, ⟨s, hs⟩, hn, updateVoiceChannel_request_answer, ?_, ?_, ?_, ?_,
    updateVoiceChannelRequest_sends⟩
  · unfold Engine.start
    rw [ht]
    simp
  · exact Engine.run_suspended e.next (workList e.client e.config) e.client e.config
      e.suspended (e.next + 1) (e.trace ++ [PassEvent.started e.next])
  · intro h
    unfold Engine.start
    rw [h]
    simp [Engine.run]
  · intro i roleId entry rest g g1 hw hg hr
    unfold Engine.start
    rw [hw]
    simp only [Engine.run, hg, hr]
  · intro i roleId entry rest g g1 channel newName hw hg hr
    unfold Engine.start
    rw [hw]
    simp only [Engine.run, hg, hr]

/-- The amended C11 at the engine in which pass 0 awaits the answer to its
rename: the next call sends the rename a second time and leaves passes 0 and 1
in progress. -/
theorem start_never_skipped_witness :
    idleEngine.start.suspended.map Suspended.pass = [0] ∧
    workList idleEngine.start.client idleEngine.start.config =
      [(0, "r".toList, RoleEntry.data sevenData)] ∧
    idleEngine.start.client.guilds[0]? = some awaitingGuild ∧
    idleEngine.start.start =
      { idleEngine.start with
        client :=
          { guilds := idleEngine.start.client.guilds.set 0
              { awaitingGuild with
                calls := awaitingGuild.calls ++
                  [ApiCall.setName "c".toList "7 members".toList] } },
        suspended := idleEngine.start.suspended ++
          [{ pass := idleEngine.start.next, guild := 0,
             channel :=
               { id := "c".toList, type := ChannelType.GuildVoice, name := [],
                 setNameRejected := false },
             newName := "7 members".toList, rest := [] }],
        next := idleEngine.start.next + 1,
        trace := idleEngine.start.trace ++ [PassEvent.started idleEngine.start.next] } :=
  ⟨by decide, by decide, by decide,
    (start_never_skipped idleEngine.start).2.2.2.2.2.2.2.1 0 "r".toList
      (RoleEntry.data sevenData) [] awaitingGuild
      { awaitingGuild with
        calls := awaitingGuild.calls ++ [ApiCall.setName "c".toList "7 members".toList] }
      { id := "c".toList, type := ChannelType.GuildVoice, name := [],
        setNameRejected := false }
      "7 members".toList (by decide) (by decide) (by decide)⟩

end RoleCounter
